import Mathlib

/-!
# Eldarius_bot: birthday reminder bot

A shallow embedding of the scheduling, formatting and storage code of the bot,
and theorems about it.

* `GoTime` models the part of Go's `time` package that the program calls
  (civil calendar, `Date`, `AddDate`, `Sub`, ...).  An instant is a number of
  nanoseconds since 0001-01-01T00:00:00 UTC, a location is a fixed offset
  east of UTC in seconds (no daylight-saving transitions).  It also holds
  `float64` rounding on rationals for `Duration.Hours`, and the parsing and
  formatting routines of `time` and `strings` that the handler uses.
* `scheduler` and `bot` hold the functions of `internal/scheduler/scheduler.go`
  and `internal/bot/handler.go`.
* `models` and `storage` hold `internal/models/models.go` and the SQLite
  repository of `internal/storage/sqlite.go`, the database being a value that
  is passed in and returned.
-/

/-! ## Definitions -/

namespace GoTime

/-- Go `time.Second` as a `Duration` (nanoseconds). -/
def Second : Int := 1000000000

/-- Go `time.Minute`. -/
def Minute : Int := 60000000000

/-- Go `time.Hour`. -/
def Hour : Int := 3600000000000

/-- Largest `Duration`, `1<<63 - 1`. -/
def maxDuration : Int := 9223372036854775807

/-- Smallest `Duration`, `-1 << 63`. -/
def minDuration : Int := -9223372036854775808

/-- Go `isLeap`. -/
def isLeap (year : Int) : Bool :=
  year % 4 == 0 && (year % 100 != 0 || year % 400 == 0)

/-- Go table `daysBefore`: `daysBefore m` is the number of days in a non-leap
year before month `m + 1` starts. -/
def daysBefore (m : Int) : Int :=
  if m = 0 then 0
  else if m = 1 then 31
  else if m = 2 then 59
  else if m = 3 then 90
  else if m = 4 then 120
  else if m = 5 then 151
  else if m = 6 then 181
  else if m = 7 then 212
  else if m = 8 then 243
  else if m = 9 then 273
  else if m = 10 then 304
  else if m = 11 then 334
  else 365

/-- Go `daysSinceEpoch`, with 0001-01-01 as day 0: the 400-, 100-, 4- and
1-year cycles are added up with floor division. -/
def daysSinceEpoch (year : Int) : Int :=
  let y := year - 1
  365 * y + y / 4 - y / 100 + y / 400

/-- The year and the zero-based day of the year of a day number
(first half of Go `absDate`). -/
def yearOfDays (d : Int) : Int × Int :=
  let n400 := d / 146097
  let d1 := d - 146097 * n400
  let n100 := d1 / 36524
  let n100 := n100 - n100 / 4
  let d2 := d1 - 36524 * n100
  let n4 := d2 / 1461
  let d3 := d2 - 1461 * n4
  let n1 := d3 / 365
  let n1 := n1 - n1 / 4
  (400 * n400 + 100 * n100 + 4 * n4 + n1 + 1, d3 - 365 * n1)

/-- Month (1..12) and day of the month of a zero-based day of the year
(second half of Go `absDate`). -/
def monthDay (leap : Bool) (yday : Int) : Int × Int :=
  if leap && yday == 59 then (2, 29)
  else
    let day := if leap && decide (yday > 59) then yday - 1 else yday
    let month := day / 31
    let stop := daysBefore (month + 1)
    if day ≥ stop then (month + 2, day - stop + 1)
    else (month + 1, day - daysBefore month + 1)

/-- Number of days of month `m` (1..12). -/
def daysIn (leap : Bool) (m : Int) : Int :=
  if m = 2 then (if leap then 29 else 28)
  else if m = 4 ∨ m = 6 ∨ m = 9 ∨ m = 11 then 30
  else 31

/-- Zero-based day of the year on which day `d` of month `m` falls, as
`time.Date` counts it (`d` may run past the end of the month). -/
def ydayOfDate (leap : Bool) (m d : Int) : Int :=
  daysBefore (m - 1) + (if leap && decide (m ≥ 3) then 1 else 0) + (d - 1)

/-- Go `norm`: carries `lo` into `hi` so that `0 ≤ lo < base`. -/
def norm (hi lo base : Int) : Int × Int := (hi + lo / base, lo % base)

/-- A Go `time.Time`: the instant and the offset of its location. -/
structure Time where
  /-- nanoseconds since 0001-01-01T00:00:00 UTC -/
  abs : Int
  /-- offset of the location east of UTC, in seconds -/
  zone : Int
  deriving DecidableEq, Repr

namespace Time

/-- Seconds since the epoch as read on the clock of the value's location
(Go `Time.abs`). -/
def wallSec (t : Time) : Int := t.abs / 1000000000 + t.zone

/-- Day number of the calendar day of `t` in its location. -/
def days (t : Time) : Int := t.wallSec / 86400

/-- Go `Time.Year`. -/
def Year (t : Time) : Int := (yearOfDays t.days).1

/-- Go `Time.YearDay`, zero-based. -/
def yday (t : Time) : Int := (yearOfDays t.days).2

/-- Go `Time.Month`. -/
def Month (t : Time) : Int := (monthDay (isLeap t.Year) t.yday).1

/-- Go `Time.Day`. -/
def Day (t : Time) : Int := (monthDay (isLeap t.Year) t.yday).2

/-- Go `Time.Hour`. -/
def Hour (t : Time) : Int := t.wallSec % 86400 / 3600

/-- Go `Time.Minute`. -/
def Minute (t : Time) : Int := t.wallSec % 3600 / 60

/-- Go `Time.Second`. -/
def Second (t : Time) : Int := t.wallSec % 60

/-- Go `Time.Nanosecond`. -/
def Nanosecond (t : Time) : Int := t.abs % 1000000000

/-- Go `Time.Before`. -/
def Before (t u : Time) : Bool := decide (t.abs < u.abs)

/-- Go `Time.After`. -/
def After (t u : Time) : Bool := decide (t.abs > u.abs)

/-- Go `Time.IsZero`. -/
def IsZero (t : Time) : Bool := decide (t.abs = 0)

/-- Go `Time.Add`. -/
def Add (t : Time) (d : Int) : Time := { abs := t.abs + d, zone := t.zone }

/-- Go `Time.Sub`: the difference as a `Duration`, saturating at the ends of
the 64-bit range. -/
def Sub (t u : Time) : Int :=
  let d := t.abs - u.abs
  if d > maxDuration then maxDuration
  else if d < minDuration then minDuration
  else d

end Time

/-- Go `Duration.Abs`. -/
def Duration.Abs (d : Int) : Int :=
  if d ≥ 0 then d
  else if d = minDuration then maxDuration
  else -d

/-- Go `time.Date`: month, nanoseconds, seconds, minutes and hours are
normalised, the day number is counted from the year and the month, and the
result is the instant at which the clock of location `loc` shows that. -/
def Date (year month day hour min sec nsec : Int) (loc : Int) : Time :=
  let ym := norm year (month - 1) 12
  let year := ym.1
  let m := ym.2
  let sn := norm sec nsec 1000000000
  let ms := norm min sn.1 60
  let hm := norm hour ms.1 60
  let dh := norm day hm.1 24
  let d := daysSinceEpoch year + daysBefore m
    + (if isLeap year && decide (m + 1 ≥ 3) then 1 else 0) + (dh.1 - 1)
  let wall := d * 86400 + dh.2 * 3600 + hm.2 * 60 + ms.2
  { abs := (wall - loc) * 1000000000 + sn.2, zone := loc }

/-- Go `Time.AddDate`. -/
def Time.AddDate (t : Time) (years months days : Int) : Time :=
  Date (t.Year + years) (t.Month + months) (t.Day + days)
    t.Hour t.Minute t.Second t.Nanosecond t.zone

end GoTime

open GoTime

namespace scheduler

/-- The function `getNextBirthday` of `scheduler.go`; `Local` is the offset of
`time.Local`. -/
def getNextBirthday (Local : Int) (birthday now : Time) : Time :=
  let nextBirthday := Date now.Year birthday.Month birthday.Day 0 0 0 0 Local
  if nextBirthday.Before now then nextBirthday.AddDate 1 0 0 else nextBirthday

/-- The function `getDaysWord` of `scheduler.go`; `%` of Go truncates. -/
def getDaysWord (days : Int) : String :=
  if days.tmod 10 = 1 ∧ days.tmod 100 ≠ 11 then "день"
  else if days.tmod 10 ≥ 2 ∧ days.tmod 10 ≤ 4 ∧
      (days.tmod 100 < 10 ∨ days.tmod 100 ≥ 20) then "дня"
  else "дней"

/-- The method `Scheduler.shouldNotify`; `now` is the value that `time.Now()`
returns inside it. -/
def shouldNotify (Local : Int) (now notifyTime : Time) : Bool :=
  let targetTime := Date now.Year now.Month now.Day notifyTime.Hour notifyTime.Minute 0 0 Local
  decide (Duration.Abs (now.Sub targetTime) ≤ Minute)

end scheduler

namespace bot

/-- The function `getNextBirthday` of `handler.go`. -/
def getNextBirthday (Local : Int) (birthday now : Time) : Time :=
  let nextBirthday := Date now.Year birthday.Month birthday.Day 0 0 0 0 Local
  if nextBirthday.Before now then nextBirthday.AddDate 1 0 0 else nextBirthday

/-- The function `getDaysWord` of `handler.go`. -/
def getDaysWord (days : Int) : String :=
  if days.tmod 10 = 1 ∧ days.tmod 100 ≠ 11 then "день"
  else if days.tmod 10 ≥ 2 ∧ days.tmod 10 ≤ 4 ∧
      (days.tmod 100 < 10 ∨ days.tmod 100 ≥ 20) then "дня"
  else "дней"

end bot

/-- The instant formed from the calendar date of `now` (in its zone) and the
hour and minute of `c`, seconds zero, in nanoseconds since the epoch: local
midnight of that day plus the hours and the minutes. -/
def combineDateClock (now c : Time) : Int :=
  (now.days * 86400 + c.Hour * 3600 + c.Minute * 60 - now.zone) * 1000000000

set_option linter.dupNamespace false

deriving instance DecidableEq for Except

namespace models

/-- The struct `Birthday` of `models.go`. -/
structure Birthday where
  ID : Int
  Name : String
  Birthday : Time
  GroupID : Int
  deriving DecidableEq, Repr

/-- The struct `Group` of `models.go`. -/
structure Group where
  ID : Int
  Title : String
  deriving DecidableEq, Repr

/-- The method `Birthday.Validate`; `none` is the nil error, and both reads of
the clock return `now`. -/
def Birthday.Validate (b : models.Birthday) (now : Time) : Option String :=
  if b.Name = "" then some "имя не может быть пустым"
  else if b.Birthday.IsZero then some "дата рождения не может быть пустой"
  else if b.Birthday.After now then some "дата рождения не может быть в будущем"
  else if now.Sub b.Birthday > 150 * 365 * 24 * Hour then some "дата рождения слишком старая"
  else none

end models

namespace storage

open models

/-- The database behind `SQLite.db`: the three tables of `createTables` and
the counter that `AUTOINCREMENT` keeps for table `birthdays`.  The rows of
`birthdays` are kept in rowid order, those of `groups` in the order in which
they were inserted.  Statements always succeed on it: failures of the
database itself have no counterpart here. -/
structure SQLite where
  groups : List Group
  birthdays : List Birthday
  sequence : Int
  settings : List (Int × String)
  deriving DecidableEq, Repr

/-- Largest rowid of table `birthdays`, 0 when it is empty. -/
def maxRowid : List Birthday → Int
  | [] => 0
  | b :: rest => max b.ID (maxRowid rest)

/-- The statement `INSERT OR IGNORE INTO groups (id, title)`: `id` is the
primary key. -/
def insertOrIgnoreGroup (groups : List Group) (g : Group) : List Group :=
  if groups.any (fun x => decide (x.ID = g.ID)) then groups else groups ++ [g]

/-- The text `strftime('%m-%d', t)`: month and day of the instant in UTC. -/
def strftimeMD (t : Time) : Int × Int :=
  ((Time.mk t.abs 0).Month, (Time.mk t.abs 0).Day)

/-- Order of two `MM-DD` texts: both fields have two digits, so the texts
compare as the pairs do. -/
def mdLE (a b : Int × Int) : Prop := a.1 < b.1 ∨ (a.1 = b.1 ∧ a.2 ≤ b.2)

instance (a b : Int × Int) : Decidable (mdLE a b) := by
  unfold mdLE; infer_instance

/-- The method `SQLite.AddBirthday`: the error (`none` for nil) and the
database after the call. -/
def SQLite.AddBirthday (s : SQLite) (now : Time) (birthday : Birthday) :
    Option String × SQLite :=
  match birthday.Validate now with
  | some err => (some ("невалидная запись о дне рождения: " ++ err), s)
  | none =>
    let group : Group := { ID := birthday.GroupID, Title := "" }
    let s1 := { s with groups := insertOrIgnoreGroup s.groups group }
    let count : Int := (s1.birthdays.filter (fun b => decide (b.GroupID = birthday.GroupID))).length
    if count ≥ 100 then (some "превышен лимит дней рождения в группе (100)", s1)
    else
      let id := max s1.sequence (maxRowid s1.birthdays) + 1
      (none, { s1 with
        birthdays := s1.birthdays ++
          [{ ID := id, Name := birthday.Name, Birthday := birthday.Birthday,
             GroupID := birthday.GroupID }],
        sequence := id })

/-- The method `SQLite.DeleteBirthday`. -/
def SQLite.DeleteBirthday (s : SQLite) (groupID id : Int) : Option String × SQLite :=
  let rows : Int :=
    (s.birthdays.filter (fun b => decide (b.ID = id ∧ b.GroupID = groupID))).length
  let s1 := { s with
    birthdays := s.birthdays.filter (fun b => !decide (b.ID = id ∧ b.GroupID = groupID)) }
  if rows = 0 then (some "день рождения не найден", s1) else (none, s1)

/-- The method `SQLite.GetUpcomingBirthdays`; `now` is the instant that SQLite
reads for `'now'`. -/
def SQLite.GetUpcomingBirthdays (s : SQLite) (now : Time) (groupID days : Int) :
    Except String (List Birthday) :=
  if days ≤ 0 then .error "количество дней должно быть положительным"
  else
    let lo := strftimeMD now
    let hi := strftimeMD (now.Add (days * (24 * Hour)))
    .ok ((s.birthdays.filter (fun b => decide (b.GroupID = groupID) &&
        (decide (mdLE lo (strftimeMD b.Birthday)) && decide (mdLE (strftimeMD b.Birthday) hi))
        )).insertionSort (fun a b => mdLE (strftimeMD a.Birthday) (strftimeMD b.Birthday)))

end storage

/-- Place of a month and day in the cycle of the year that starts at the
month and day of today: the order "by calendar month-day ascending starting
from today" is the order of these ranks. -/
def monthDayRank (today md : Int × Int) : Int :=
  if 100 * today.1 + today.2 ≤ 100 * md.1 + md.2 then 100 * md.1 + md.2
  else 100 * md.1 + md.2 + 1300

/-- The database right after `createTables`. -/
def storage.emptyDB : storage.SQLite :=
  { groups := [], birthdays := [], sequence := 0, settings := [] }

/-- The record of the round trip of the specification: "Ann Lee",
15.03.1990, as `time.Parse` reads the date (midnight UTC), for group 7. -/
def annLee : models.Birthday :=
  { ID := 0, Name := "Ann Lee", Birthday := Date 1990 3 15 0 0 0 0 0, GroupID := 7 }

/-- A sample current time: 1 June 2024, 09:00:30, in a zone three hours east
of UTC. -/
def sampleNow : Time := Date 2024 6 1 9 0 30 0 10800

/-- A database in which group 7 holds 100 records. -/
def storage.fullDB : storage.SQLite :=
  { groups := [{ ID := 7, Title := "" }],
    birthdays := (List.range 100).map
      (fun i => { ID := (i : Int) + 1, Name := "Ann Lee",
                  Birthday := Date 1990 3 15 0 0 0 0 0, GroupID := 7 }),
    sequence := 100, settings := [] }

/-- A database with one record in group 7 (rowid 1) and one in group 8
(rowid 2). -/
def storage.twoGroupDB : storage.SQLite :=
  { groups := [{ ID := 7, Title := "" }, { ID := 8, Title := "" }],
    birthdays := [{ ID := 1, Name := "Ann Lee", Birthday := Date 1990 3 15 0 0 0 0 0, GroupID := 7 },
                  { ID := 2, Name := "Bob Ray", Birthday := Date 1985 7 4 0 0 0 0 0, GroupID := 8 }],
    sequence := 2, settings := [] }

/-- A database in which group 7 holds one record, born on 2 January 1991. -/
def storage.yearEndDB : storage.SQLite :=
  { groups := [{ ID := 7, Title := "" }],
    birthdays := [{ ID := 1, Name := "Ann Lee", Birthday := Date 1991 1 2 0 0 0 0 0, GroupID := 7 }],
    sequence := 1, settings := [] }

/-- A database in which group 7 holds a record born on 5 January 1991
(inserted first) and one born on 25 December 1990. -/
def storage.winterDB : storage.SQLite :=
  { groups := [{ ID := 7, Title := "" }],
    birthdays := [{ ID := 1, Name := "Ann Lee", Birthday := Date 1991 1 5 0 0 0 0 0, GroupID := 7 },
                  { ID := 2, Name := "Bob Ray", Birthday := Date 1990 12 25 0 0 0 0 0, GroupID := 7 }],
    sequence := 2, settings := [] }

/-- A database in which group 7 holds a record stored with the offset of a
zone three hours east of UTC, 15 March 1990 at 02:00 there (23:00 of 14 March
in UTC), and a record stored as midnight of 15 March 1990 in UTC, one hour
later. -/
def storage.zonedDB : storage.SQLite :=
  { groups := [{ ID := 7, Title := "" }],
    birthdays := [{ ID := 1, Name := "Ann Lee", Birthday := Date 1990 3 15 2 0 0 0 10800, GroupID := 7 },
                  { ID := 2, Name := "Bob Ray", Birthday := Date 1990 3 15 0 0 0 0 0, GroupID := 7 }],
    sequence := 2, settings := [] }

/-! ### Floating point, parsing and formatting -/

namespace GoTime

/-- Rounding of a rational to the nearest integer, halves to the even one. -/
def roundHalfEven (q : ℚ) : Int :=
  if q - ⌊q⌋ < 1 / 2 then ⌊q⌋
  else if 1 / 2 < q - ⌊q⌋ then ⌊q⌋ + 1
  else if ⌊q⌋ % 2 = 0 then ⌊q⌋ else ⌊q⌋ + 1

/-- The `float64` nearest to a rational (IEEE 754 binary64, round to nearest,
ties to even): a multiple of `2 ^ (e - 52)`, where `2 ^ e ≤ |x| < 2 ^ (e + 1)`.
Overflow and subnormal numbers are left out; the values of the program stay
between `2 ^ (-42)` and `2 ^ 23`. -/
def float64 (x : ℚ) : ℚ :=
  if x = 0 then 0
  else (roundHalfEven (x / 2 ^ (Int.log 2 |x| - 52)) : ℚ) * 2 ^ (Int.log 2 |x| - 52)

/-- Go `Duration.Hours`: `float64(d / Hour) + float64(d % Hour) / (60*60*1e9)`
in `float64` arithmetic. -/
def Duration.Hours (d : Int) : ℚ :=
  float64 (float64 ((d.tdiv Hour : Int) : ℚ)
    + float64 (float64 ((d.tmod Hour : Int) : ℚ) / 3600000000000))

/-- Go conversion `int(f)` of a `float64`: the fraction is dropped. -/
def truncInt (x : ℚ) : Int := if 0 ≤ x then ⌊x⌋ else ⌈x⌉


/-- Go `isDigit` on one character. -/
def isDigit (c : Char) : Bool := decide (48 ≤ c.toNat ∧ c.toNat ≤ 57)

/-- Value of a decimal digit. -/
def digitVal (c : Char) : Int := (c.toNat : Int) - 48

/-- Go `getnum`: one or two leading digits, exactly two when `fixed`; the
number and the rest of the text, `none` for an error. -/
def getnum (s : List Char) (fixed : Bool) : Option (Int × List Char) :=
  match s with
  | [] => none
  | [c0] => if isDigit c0 && !fixed then some (digitVal c0, []) else none
  | c0 :: c1 :: rest =>
    if !isDigit c0 then none
    else if !isDigit c1 then (if fixed then none else some (digitVal c0, c1 :: rest))
    else some (digitVal c0 * 10 + digitVal c1, rest)

/-- Go `time.Parse("02.01.2006", value)`: two digits, a dot, two digits, a
dot, four digits and nothing more; the month is in 1..12 and the day exists
in that month of that year.  The result is midnight UTC; `none` stands for
every error. -/
def parseDate (value : String) : Option Time :=
  match getnum value.data true with
  | none => none
  | some (day, v1) =>
    match v1 with
    | [] => none
    | dot1 :: v2 =>
      if dot1.toNat ≠ 46 then none
      else
        match getnum v2 true with
        | none => none
        | some (month, v3) =>
          match v3 with
          | dot2 :: y0 :: y1 :: y2 :: y3 :: v4 =>
            if dot2.toNat ≠ 46 then none
            else if !(isDigit y0 && isDigit y1 && isDigit y2 && isDigit y3) then none
            else if v4 ≠ [] then none
            else
              let year := digitVal y0 * 1000 + digitVal y1 * 100 + digitVal y2 * 10 + digitVal y3
              if month ≤ 0 ∨ 12 < month then none
              else if day < 1 ∨ day > daysIn (isLeap year) month then none
              else some (Date year month day 0 0 0 0 0)
          | _ => none

/-- Go `time.Parse("15:04", value)`: an hour of one or two digits below 24, a
colon, a minute of two digits below 60 and nothing more; the result is that
time on 1 January of year 0, UTC. -/
def parseClock (value : String) : Option Time :=
  match getnum value.data false with
  | none => none
  | some (hour, v1) =>
    match v1 with
    | [] => none
    | colon :: v2 =>
      if colon.toNat ≠ 58 then none
      else
        match getnum v2 true with
        | none => none
        | some (min, v3) =>
          if v3 ≠ [] then none
          else if hour < 0 ∨ 24 ≤ hour then none
          else if min < 0 ∨ 60 ≤ min then none
          else some (Date 0 1 1 hour min 0 0 0)

/-- Go `appendInt`: decimal digits of `x`, filled with zeros on the left up to
`width`, after a minus sign when `x` is negative. -/
def appendInt (x : Int) (width : Nat) : String :=
  let digits := Nat.repr x.natAbs
  let padded := String.mk (List.replicate (width - digits.length) (Char.ofNat 48)) ++ digits
  if x < 0 then "-" ++ padded else padded

/-- Go `t.Format("02.01.2006")`. -/
def Time.formatDate (t : Time) : String :=
  appendInt t.Day 2 ++ "." ++ appendInt t.Month 2 ++ "." ++ appendInt t.Year 4

/-- Go `appendNano` for the layout `.999999999`: nothing when the nanoseconds
are zero, else the separator and the nine digits without the zeros at the
end. -/
def appendNano (nanosec : Int) : String :=
  if nanosec = 0 then ""
  else "." ++ String.mk ((appendInt nanosec 9).data.rdropWhile (fun c => decide (c.toNat = 48)))

/-- The zone of Go `Format` for the layout `-07:00`: the sign, and the hours
and the minutes of the offset with two digits each; the seconds of the offset
are not written. -/
def formatZone (offset : Int) : String :=
  let zone := offset.tdiv 60
  if zone < 0 then "-" ++ appendInt ((-zone).tdiv 60) 2 ++ ":" ++ appendInt ((-zone).tmod 60) 2
  else "+" ++ appendInt (zone.tdiv 60) 2 ++ ":" ++ appendInt (zone.tmod 60) 2

/-- Go `t.Format("2006-01-02 15:04:05.999999999-07:00")`, the first of the
`SQLiteTimestampFormats` of go-sqlite3: the text that the driver binds for a
`time.Time` and that the column `birthday` holds. -/
def Time.formatTimestamp (t : Time) : String :=
  appendInt t.Year 4 ++ "-" ++ appendInt t.Month 2 ++ "-" ++ appendInt t.Day 2 ++ " "
    ++ appendInt t.Hour 2 ++ ":" ++ appendInt t.Minute 2 ++ ":" ++ appendInt t.Second 2
    ++ appendNano t.Nanosecond ++ formatZone t.zone

/-- Go `unicode.IsSpace`. -/
def isSpace (c : Char) : Bool :=
  let n := c.toNat
  decide ((9 ≤ n ∧ n ≤ 13) ∨ n = 32 ∨ n = 133 ∨ n = 160 ∨ n = 5760 ∨ (8192 ≤ n ∧ n ≤ 8202) ∨
    n = 8232 ∨ n = 8233 ∨ n = 8239 ∨ n = 8287 ∨ n = 12288)

/-- The loop of Go `strings.Fields`: `cur` is the field being read. -/
def fieldsFrom : List Char → List Char → List String
  | [], cur => if cur = [] then [] else [String.mk cur]
  | c :: cs, cur =>
    if isSpace c then (if cur = [] then fieldsFrom cs [] else String.mk cur :: fieldsFrom cs [])
    else fieldsFrom cs (cur ++ [c])

/-- Go `strings.Fields`: the pieces of the text between runs of white
space. -/
def Fields (s : String) : List String := fieldsFrom s.data []

/-- Go `strings.Join`. -/
def Join (parts : List String) (sep : String) : String := sep.intercalate parts

end GoTime

open models storage

/-! ### Notify time, scheduler pass and handler -/

namespace storage

/-- Comparison of two texts by SQLite under the collation `BINARY`: `memcmp`
over the common length, then the shorter text first.  The bytes of UTF-8
compare as the characters do. -/
def textCompare : List Char → List Char → Ordering
  | [], [] => .eq
  | [], _ :: _ => .lt
  | _ :: _, [] => .gt
  | a :: as, b :: bs =>
    if a.toNat < b.toNat then .lt
    else if b.toNat < a.toNat then .gt
    else textCompare as bs

/-- The order `a <= b` of two texts in an `ORDER BY`. -/
def textLE (a b : String) : Bool := textCompare a.data b.data != .gt

/-- The method `SQLite.GetBirthdays`: the rows of the group, `ORDER BY
birthday`.  The column holds the text that the driver wrote for the time
(`Time.formatTimestamp`), and SQLite orders the rows by that text; rows with
the same text keep the order of their rowids here, SQL leaves it open.  Each
row comes back with the time that was stored (the driver reads the text back
to the same instant and offset, the offset being one of whole minutes). -/
def SQLite.GetBirthdays (s : SQLite) (groupID : Int) : Except String (List Birthday) :=
  .ok ((s.birthdays.filter (fun b => decide (b.GroupID = groupID))).insertionSort
    (fun a b => textLE a.Birthday.formatTimestamp b.Birthday.formatTimestamp = true))

/-- The method `SQLite.GetAllGroups`: the query has no `ORDER BY`, and the
scan of a table whose primary key is the integer `id` returns the rows by
ascending `id`. -/
def SQLite.GetAllGroups (s : SQLite) : Except String (List Group) :=
  .ok (s.groups.insertionSort (fun a b => a.ID ≤ b.ID))

/-- The method `SQLite.GetNotifyTime`: without a row for the group the
default `time.Date(0, 0, 0, 9, 0, 0, 0, time.Local)`, otherwise the stored
text parsed with layout `15:04`.  The text of the parse error that Go wraps
is left out of the message. -/
def SQLite.GetNotifyTime (s : SQLite) (Local : Int) (groupID : Int) : Except String Time :=
  match s.settings.lookup groupID with
  | none => .ok (Date 0 0 0 9 0 0 0 Local)
  | some timeStr =>
    match parseClock timeStr with
    | none => .error "ошибка парсинга времени"
    | some t => .ok t

/-- The part of the interface `Repository` that the scheduler calls; each
call may fail, whatever the store behind it is. -/
structure Repository where
  GetAllGroups : Except String (List Group)
  GetNotifyTime : Int → Except String Time
  GetUpcomingBirthdays : Int → Int → Except String (List Birthday)

/-- The repository that a database `s` implements, at local offset `Local`
and with `now` as the instant that SQLite reads. -/
def SQLite.repository (s : SQLite) (Local : Int) (now : Time) : Repository :=
  { GetAllGroups := s.GetAllGroups,
    GetNotifyTime := s.GetNotifyTime Local,
    GetUpcomingBirthdays := s.GetUpcomingBirthdays now }

end storage

namespace scheduler

/-- The Telegram client as the scheduler uses it: `Send chatID text` returns
the error of the call, `none` when the message was delivered. -/
structure BotAPI where
  Send : Int → String → Option String

/-- One pass of the loop body of `sendGroupNotification`: the line written
for record `b`.  Every read of the clock during a call returns `now`. -/
def notificationLine (Local : Int) (now : Time) (b : Birthday) : String :=
  let nextBirthday := getNextBirthday Local b.Birthday now
  let daysUntil := truncInt (float64 (Duration.Hours (nextBirthday.Sub now) / 24))
  if daysUntil = 0 then "🎉 Сегодня день рождения у " ++ b.Name ++ "!\n"
  else "📅 Через " ++ toString daysUntil ++ " " ++ getDaysWord daysUntil
    ++ " день рождения у " ++ b.Name ++ "\n"

/-- The method `Scheduler.sendGroupNotification`: the error of the call and
the messages delivered by it. -/
def sendGroupNotification (Local : Int) (now : Time) (bot : BotAPI) (groupID : Int)
    (birthdays : List Birthday) : Option String × List (Int × String) :=
  let text := "🎂 Предстоящие дни рождения:\n\n"
    ++ String.join (birthdays.map (notificationLine Local now))
  match bot.Send groupID text with
  | none => (none, [(groupID, text)])
  | some err => (some err, [])

/-- The body of the loop of `checkBirthdays` for one group: the messages
delivered.  Errors are printed and the loop goes on. -/
def checkGroup (Local : Int) (now : Time) (store : Repository) (bot : BotAPI)
    (group : Group) : List (Int × String) :=
  match store.GetNotifyTime group.ID with
  | .error _ => []
  | .ok notifyTime =>
    if !shouldNotify Local now notifyTime then []
    else
      match store.GetUpcomingBirthdays group.ID 7 with
      | .error _ => []
      | .ok birthdays =>
        if birthdays.length = 0 then []
        else (sendGroupNotification Local now bot group.ID birthdays).2

/-- The loop of `checkBirthdays` over the groups, in order. -/
def checkGroups (Local : Int) (now : Time) (store : Repository) (bot : BotAPI) :
    List Group → List (Int × String)
  | [] => []
  | group :: rest => checkGroup Local now store bot group ++ checkGroups Local now store bot rest

/-- The method `Scheduler.checkBirthdays`: the error it returns and the
messages delivered during the pass. -/
def checkBirthdays (Local : Int) (now : Time) (store : Repository) (bot : BotAPI) :
    Option String × List (Int × String) :=
  match store.GetAllGroups with
  | .error err => (some ("ошибка получения групп: " ++ err), [])
  | .ok groups => (none, checkGroups Local now store bot groups)

end scheduler

namespace bot

/-- The line that `handleShowBirthdays` writes for record `b`. -/
def birthdayLine (Local : Int) (now : Time) (b : Birthday) : String :=
  let nextBirthday := getNextBirthday Local b.Birthday now
  let daysUntil := truncInt (float64 (Duration.Hours (nextBirthday.Sub now) / 24))
  if daysUntil = 0 then "🎉 " ++ b.Name ++ " - СЕГОДНЯ! (" ++ b.Birthday.formatDate ++ ")\n"
  else "🎂 " ++ b.Name ++ " - " ++ toString daysUntil ++ " " ++ getDaysWord daysUntil
    ++ " (" ++ b.Birthday.formatDate ++ ")\n"

/-- The call `sort.Slice(birthdays, less)` of `handleShowBirthdays`, `less`
comparing the next birthdays with `Before`.  Go does not fix the order of
records that `less` does not separate; here they keep their order. -/
def sortByNextBirthday (Local : Int) (now : Time) (birthdays : List Birthday) : List Birthday :=
  birthdays.insertionSort (fun a b =>
    (getNextBirthday Local b.Birthday now).Before (getNextBirthday Local a.Birthday now) = false)

/-- The method `Handler.handleShowBirthdays`: the text sent to the chat, or
the error returned before anything is sent. -/
def handleShowBirthdays (Local : Int) (now : Time) (s : SQLite) (chatID : Int) :
    Except String String :=
  match s.GetBirthdays chatID with
  | .error err => .error ("ошибка при получении дней рождения: " ++ err)
  | .ok birthdays =>
    if birthdays.length = 0 then .ok "В этой группе пока нет дней рождения."
    else .ok ("📅 Дни рождения в группе:\n\n"
      ++ String.join ((sortByNextBirthday Local now birthdays).map (birthdayLine Local now)))

/-- The method `Handler.processAddBirthday` for a reply `text` in chat
`chatID`: the text sent back and the database after the call. -/
def processAddBirthday (s : SQLite) (now : Time) (chatID : Int) (text : String) :
    String × SQLite :=
  let parts := Fields text
  if parts.length < 3 then ("Неверный формат. Используйте: Имя Фамилия ДД.ММ.ГГГГ", s)
  else
    let dateStr := parts.getLastD ""
    match parseDate dateStr with
    | none => ("Неверный формат даты. Используйте: ДД.ММ.ГГГГ", s)
    | some birthday =>
      let name := Join parts.dropLast " "
      let b : Birthday := { ID := 0, Name := name, Birthday := birthday, GroupID := chatID }
      match s.AddBirthday now b with
      | (some err, s1) => ("Ошибка при добавлении дня рождения: " ++ err, s1)
      | (none, s1) => ("✅ День рождения " ++ name ++ " успешно добавлен!", s1)

end bot

/-- The condition of the specification for a valid record: the name is not
empty, the date of birth is not after now and not before the day 150
calendar years before now (`now.AddDate(-150, 0, 0)`). -/
def validBySpec (b : Birthday) (now : Time) : Prop :=
  b.Name ≠ "" ∧ b.Birthday.After now = false ∧ b.Birthday.Before (now.AddDate (-150) 0 0) = false

/-- A record born on 15 June 1874, 150 years less two weeks before
`sampleNow`. -/
def oldRecord : Birthday :=
  { ID := 0, Name := "Ann Lee", Birthday := Date 1874 6 15 0 0 0 0 0, GroupID := 7 }

/-- The record of the scenario of the specification: born on 8 June, seven
calendar days after the day of `sampleNow`. -/
def weekAhead : Birthday :=
  { ID := 1, Name := "Ann Lee", Birthday := Date 1990 6 8 0 0 0 0 0, GroupID := 7 }

/-- A store with groups 7 and 8 on which every call succeeds: notify time
09:00 and one upcoming record for each group. -/
def scheduler.okStore : Repository :=
  { GetAllGroups := .ok [{ ID := 7, Title := "" }, { ID := 8, Title := "" }],
    GetNotifyTime := fun _ => .ok (Date 0 1 1 9 0 0 0 0),
    GetUpcomingBirthdays := fun _ _ => .ok [weekAhead] }

/-- The same store with a failing `GetNotifyTime` for group 7. -/
def scheduler.failingStore : Repository :=
  { GetAllGroups := .ok [{ ID := 7, Title := "" }, { ID := 8, Title := "" }],
    GetNotifyTime := fun g =>
      if g = 7 then .error "ошибка получения времени уведомления"
      else .ok (Date 0 1 1 9 0 0 0 0),
    GetUpcomingBirthdays := fun _ _ => .ok [weekAhead] }

/-- A transport that delivers every message. -/
def scheduler.okBot : scheduler.BotAPI := { Send := fun _ _ => none }

/-! ### Setting the notify time -/

namespace GoTime

/-- Go `t.Format("15:04")`: hour and minute of the clock of `t`, two digits
each. -/
def Time.formatClock (t : Time) : String :=
  appendInt t.Hour 2 ++ ":" ++ appendInt t.Minute 2

end GoTime

namespace storage

/-- The method `SQLite.SetNotifyTime`: `INSERT OR REPLACE` removes the row of
the group, `group_id` being the primary key, and inserts the new one. -/
def SQLite.SetNotifyTime (s : SQLite) (groupID : Int) (t : Time) : Option String × SQLite :=
  let timeStr := t.formatClock
  (none, { s with
    settings := s.settings.filter (fun p => !decide (p.1 = groupID)) ++ [(groupID, timeStr)] })

end storage

/-! ## The calendar -/

namespace GoTime

theorem isLeap_iff (y : Int) :
    isLeap y = true ↔ (y % 4 = 0 ∧ (y % 100 ≠ 0 ∨ y % 400 = 0)) := by
  simp [isLeap]


theorem daysSinceEpoch_cycles (b c f g : Int) (hc : 0 ≤ c ∧ c ≤ 3) (hf : 0 ≤ f ∧ f ≤ 24)
    (hg : 0 ≤ g ∧ g ≤ 3) :
    daysSinceEpoch (400 * b + 100 * c + 4 * f + g + 1)
      = 146097 * b + 36524 * c + 1461 * f + 365 * g := by
  simp only [daysSinceEpoch]
  omega

theorem yearOfDays_decomp (d : Int) : ∃ b c f g r : Int,
    (0 ≤ c ∧ c ≤ 3) ∧ (0 ≤ f ∧ f ≤ 24) ∧ (0 ≤ g ∧ g ≤ 3) ∧ 0 ≤ r ∧
    (r < 365 ∨ (r = 365 ∧ g = 3 ∧ (f = 24 → c = 3))) ∧
    d = 146097 * b + 36524 * c + 1461 * f + 365 * g + r ∧
    yearOfDays d = (400 * b + 100 * c + 4 * f + g + 1, r) := by
  refine ⟨d / 146097, _, _, _, _, ?_, ?_, ?_, ?_, ?_, ?_, rfl⟩ <;> omega

/-- The year and day of the year found by `yearOfDays` add up to the day
number, and the day of the year lies inside the year. -/
theorem yearOfDays_spec (d : Int) :
    daysSinceEpoch (yearOfDays d).1 + (yearOfDays d).2 = d ∧ 0 ≤ (yearOfDays d).2 ∧
    ((yearOfDays d).2 < 365 ∨
      ((yearOfDays d).2 = 365 ∧ isLeap (yearOfDays d).1 = true)) := by
  obtain ⟨b, c, f, g, r, hc, hf, hg, hr, hr2, hd, he⟩ := yearOfDays_decomp d
  rw [he]
  simp only
  rw [daysSinceEpoch_cycles b c f g hc hf hg, isLeap_iff]
  omega

theorem daysSinceEpoch_succ (y : Int) :
    daysSinceEpoch (y + 1) = daysSinceEpoch y + (if isLeap y = true then 366 else 365) := by
  simp only [daysSinceEpoch]
  by_cases hl : isLeap y = true
  · rw [if_pos hl]; rw [isLeap_iff] at hl; omega
  · rw [if_neg hl]; rw [isLeap_iff] at hl; omega

theorem daysSinceEpoch_lt (y z : Int) (h : y < z) :
    daysSinceEpoch y + (if isLeap y = true then 366 else 365) ≤ daysSinceEpoch z := by
  rw [← daysSinceEpoch_succ]
  simp only [daysSinceEpoch]
  omega

/-- A day inside year `y` is decoded as year `y`. -/
theorem yearOfDays_unique (y k : Int) (h0 : 0 ≤ k)
    (h1 : k < 365 ∨ (k = 365 ∧ isLeap y = true)) :
    yearOfDays (daysSinceEpoch y + k) = (y, k) := by
  obtain ⟨hs, hk0, hk1⟩ := yearOfDays_spec (daysSinceEpoch y + k)
  generalize yearOfDays (daysSinceEpoch y + k) = p at hs hk0 hk1
  obtain ⟨z, j⟩ := p
  simp only at hs hk0 hk1
  have hzy : z = y := by
    rcases lt_trichotomy z y with hlt | heq | hgt
    · have := daysSinceEpoch_lt z y hlt
      split at this <;> rename_i hl
      · omega
      · have hj : j < 365 := by
          rcases hk1 with h | ⟨_, h⟩
          · exact h
          · exact absurd h hl
        omega
    · exact heq
    · have := daysSinceEpoch_lt y z hgt
      split at this <;> rename_i hl
      · omega
      · have hj : k < 365 := by
          rcases h1 with h | ⟨_, h⟩
          · exact h
          · exact absurd h hl
        omega
  subst hzy
  have : j = k := by omega
  rw [this]

set_option maxRecDepth 100000 in
theorem monthDay_table : ∀ leap : Bool, ∀ k : Fin 366, ((k : Nat) < 365 ∨ leap = true) →
    (1 ≤ (monthDay leap (k : Nat)).1 ∧ (monthDay leap (k : Nat)).1 ≤ 12 ∧
     1 ≤ (monthDay leap (k : Nat)).2 ∧
     (monthDay leap (k : Nat)).2 ≤ daysIn leap (monthDay leap (k : Nat)).1 ∧
     ydayOfDate leap (monthDay leap (k : Nat)).1 (monthDay leap (k : Nat)).2
       = ((k : Nat) : Int)) := by
  decide

set_option maxRecDepth 100000 in
theorem ydayOfDate_table : ∀ leap : Bool, ∀ m : Fin 13, ∀ d : Fin 32,
    (1 ≤ (m : Nat) ∧ 1 ≤ (d : Nat) ∧ (((d : Nat) : Int) ≤ daysIn leap ((m : Nat) : Int))) →
    monthDay leap (ydayOfDate leap ((m : Nat) : Int) ((d : Nat) : Int))
      = (((m : Nat) : Int), ((d : Nat) : Int)) ∧
    0 ≤ ydayOfDate leap ((m : Nat) : Int) ((d : Nat) : Int) ∧
    ydayOfDate leap ((m : Nat) : Int) ((d : Nat) : Int) < 365 + (if leap then 1 else 0) := by
  decide

theorem daysIn_le (leap : Bool) (m : Int) : daysIn leap m ≤ 31 ∧ daysIn leap m ≤ daysIn true m ∧
    daysIn false m ≤ daysIn leap m := by
  cases leap <;> simp only [daysIn] <;> split_ifs <;> omega

/-- Every day of a year is decoded as a month and a day of that month, and
`ydayOfDate` leads back to it. -/
theorem monthDay_spec (leap : Bool) (k : Int) (h0 : 0 ≤ k)
    (h1 : k < 365 ∨ (k = 365 ∧ leap = true)) :
    1 ≤ (monthDay leap k).1 ∧ (monthDay leap k).1 ≤ 12 ∧ 1 ≤ (monthDay leap k).2 ∧
    (monthDay leap k).2 ≤ daysIn leap (monthDay leap k).1 ∧
    ydayOfDate leap (monthDay leap k).1 (monthDay leap k).2 = k := by
  obtain ⟨n, rfl⟩ := Int.eq_ofNat_of_zero_le h0
  have hn : n < 366 := by omega
  have hv : n < 365 ∨ leap = true := by
    rcases h1 with h | ⟨_, h⟩
    · left; omega
    · right; exact h
  exact monthDay_table leap ⟨n, hn⟩ hv

/-- A valid month and day is found again from its day of the year. -/
theorem monthDay_ydayOfDate (leap : Bool) (m d : Int) (hm : 1 ≤ m ∧ m ≤ 12)
    (hd : 1 ≤ d ∧ d ≤ daysIn leap m) :
    monthDay leap (ydayOfDate leap m d) = (m, d) ∧ 0 ≤ ydayOfDate leap m d ∧
    (ydayOfDate leap m d < 365 ∨ (ydayOfDate leap m d = 365 ∧ leap = true)) := by
  have h31 := (daysIn_le leap m).1
  obtain ⟨a, rfl⟩ := Int.eq_ofNat_of_zero_le (by omega : 0 ≤ m)
  obtain ⟨b, rfl⟩ := Int.eq_ofNat_of_zero_le (by omega : 0 ≤ d)
  have ha : a < 13 := by omega
  have hb : b < 32 := by omega
  have hab : 1 ≤ a ∧ 1 ≤ b := by omega
  obtain ⟨t1, t2, t3⟩ := ydayOfDate_table leap ⟨a, ha⟩ ⟨b, hb⟩ ⟨hab.1, hab.2, hd.2⟩
  have u1 : monthDay leap (ydayOfDate leap (a : Int) (b : Int)) = ((a : Int), (b : Int)) := t1
  have u2 : 0 ≤ ydayOfDate leap (a : Int) (b : Int) := t2
  have u3 : ydayOfDate leap (a : Int) (b : Int) < 365 + (if leap = true then 1 else 0) := t3
  refine ⟨u1, u2, ?_⟩
  cases leap
  · left
    simpa using u3
  · simp only [if_true] at u3
    rcases Int.lt_or_le (ydayOfDate true (a : Int) (b : Int)) 365 with h | h
    · left; exact h
    · right; exact ⟨by omega, rfl⟩


theorem Time.civil (t : Time) :
    (1 ≤ t.Month ∧ t.Month ≤ 12) ∧ (1 ≤ t.Day ∧ t.Day ≤ daysIn (isLeap t.Year) t.Month) ∧
    daysSinceEpoch t.Year + ydayOfDate (isLeap t.Year) t.Month t.Day = t.days := by
  obtain ⟨hs, h0, h1⟩ := yearOfDays_spec t.days
  obtain ⟨a, b, c, d, e⟩ := monthDay_spec (isLeap t.Year) t.yday h0 h1
  refine ⟨⟨a, b⟩, ⟨c, d⟩, ?_⟩
  show daysSinceEpoch t.Year + ydayOfDate (isLeap t.Year) (monthDay (isLeap t.Year) t.yday).1
    (monthDay (isLeap t.Year) t.yday).2 = t.days
  rw [e]
  exact hs

theorem Time.days_year (t : Time) :
    daysSinceEpoch t.Year ≤ t.days ∧ t.days < daysSinceEpoch (t.Year + 1) := by
  obtain ⟨hs, h0, h1⟩ := yearOfDays_spec t.days
  have hs' : daysSinceEpoch t.Year + t.yday = t.days := hs
  have h0' : 0 ≤ t.yday := h0
  have h1' : t.yday < 365 ∨ (t.yday = 365 ∧ isLeap t.Year = true) := h1
  rw [daysSinceEpoch_succ]
  split <;> rename_i hl
  · omega
  · have : t.yday < 365 := by
      rcases h1' with h | ⟨_, h⟩
      · exact h
      · exact absurd h hl
    omega

/-- The instant that `Date` builds for a month in 1..12 and a clock time given
in hours and minutes. -/
theorem Date_abs (y m d h mi loc : Int) (hm : 1 ≤ m ∧ m ≤ 12) :
    Date y m d h mi 0 0 loc =
      { abs := ((daysSinceEpoch y + ydayOfDate (isLeap y) m d) * 86400 + h * 3600 + mi * 60
                  - loc) * 1000000000,
        zone := loc } := by
  have e1 : (m - 1) / 12 = 0 := by omega
  have e2 : (m - 1) % 12 = m - 1 := by omega
  have e3 : m - 1 + 1 = m := by omega
  simp only [Date, norm, ydayOfDate, e1, e2, e3, add_zero]
  congr 1
  generalize daysSinceEpoch y = D
  generalize daysBefore (m - 1) = E
  generalize (if (isLeap y && decide (m ≥ 3)) = true then (1 : Int) else 0) = F
  omega

theorem Date_wallSec (y m d h mi loc : Int) (hm : 1 ≤ m ∧ m ≤ 12) :
    (Date y m d h mi 0 0 loc).wallSec =
      (daysSinceEpoch y + ydayOfDate (isLeap y) m d) * 86400 + h * 3600 + mi * 60 := by
  rw [Date_abs y m d h mi loc hm]
  simp only [Time.wallSec]
  omega


/-- Reading back a date built by `Date` from a valid month, day, hour and
minute gives the same fields. -/
theorem Date_civil (y m d h mi loc : Int) (hm : 1 ≤ m ∧ m ≤ 12)
    (hd : 1 ≤ d ∧ d ≤ daysIn (isLeap y) m) (hh : 0 ≤ h ∧ h < 24) (hmi : 0 ≤ mi ∧ mi < 60) :
    (Date y m d h mi 0 0 loc).Year = y ∧ (Date y m d h mi 0 0 loc).Month = m ∧
    (Date y m d h mi 0 0 loc).Day = d ∧ (Date y m d h mi 0 0 loc).Hour = h ∧
    (Date y m d h mi 0 0 loc).Minute = mi ∧ (Date y m d h mi 0 0 loc).Second = 0 ∧
    (Date y m d h mi 0 0 loc).Nanosecond = 0 ∧ (Date y m d h mi 0 0 loc).zone = loc := by
  have hw := Date_wallSec y m d h mi loc hm
  have ha := Date_abs y m d h mi loc hm
  obtain ⟨k1, k2, k3⟩ := monthDay_ydayOfDate (isLeap y) m d hm hd
  generalize Date y m d h mi 0 0 loc = t at hw ha
  have hdays : t.days = daysSinceEpoch y + ydayOfDate (isLeap y) m d := by
    simp only [Time.days, hw]; omega
  have hy := yearOfDays_unique y _ k2 k3
  have hY : t.Year = y := by simp only [Time.Year, hdays, hy]
  have hyd : t.yday = ydayOfDate (isLeap y) m d := by simp only [Time.yday, hdays, hy]
  refine ⟨hY, ?_, ?_, ?_, ?_, ?_, ?_, ?_⟩
  · simp only [Time.Month, hY, hyd, k1]
  · simp only [Time.Day, hY, hyd, k1]
  · simp only [Time.Hour, hw]; omega
  · simp only [Time.Minute, hw]; omega
  · simp only [Time.Second, hw]; omega
  · simp only [Time.Nanosecond, ha]; omega
  · simp only [ha]

/-- A month and day that exist in a leap year fall inside every year when
counted by `ydayOfDate`. -/
theorem ydayOfDate_inside (leap : Bool) (m d : Int) (hm : 1 ≤ m ∧ m ≤ 12)
    (hd : 1 ≤ d ∧ d ≤ daysIn true m) :
    0 ≤ ydayOfDate leap m d ∧
    (ydayOfDate leap m d < 365 ∨ (ydayOfDate leap m d = 365 ∧ leap = true)) := by
  cases leap
  · by_cases hfeb : m = 2 ∧ d = 29
    · obtain ⟨rfl, rfl⟩ := hfeb
      decide
    · have hd2 : d ≤ daysIn false m := by
        have := hd.2
        simp only [daysIn] at this ⊢
        split_ifs at this ⊢ <;> omega
      exact (monthDay_ydayOfDate false m d hm ⟨hd.1, hd2⟩).2
  · exact (monthDay_ydayOfDate true m d hm hd).2

/-- The year, month and day of midnight `Date y m d` when `m`, `d` exist in
some year: the day may run over into the next month, never into the next
year. -/
theorem Date_midnight (y m d loc : Int) (hm : 1 ≤ m ∧ m ≤ 12)
    (hd : 1 ≤ d ∧ d ≤ daysIn true m) :
    (Date y m d 0 0 0 0 loc).Year = y ∧
    (Date y m d 0 0 0 0 loc).Month = (monthDay (isLeap y) (ydayOfDate (isLeap y) m d)).1 ∧
    (Date y m d 0 0 0 0 loc).Day = (monthDay (isLeap y) (ydayOfDate (isLeap y) m d)).2 ∧
    (Date y m d 0 0 0 0 loc).Hour = 0 ∧ (Date y m d 0 0 0 0 loc).Minute = 0 ∧
    (Date y m d 0 0 0 0 loc).Second = 0 ∧ (Date y m d 0 0 0 0 loc).Nanosecond = 0 ∧
    (Date y m d 0 0 0 0 loc).zone = loc := by
  have hw := Date_wallSec y m d 0 0 loc hm
  have ha := Date_abs y m d 0 0 loc hm
  obtain ⟨k2, k3⟩ := ydayOfDate_inside (isLeap y) m d hm hd
  generalize Date y m d 0 0 0 0 loc = t at hw ha
  have hdays : t.days = daysSinceEpoch y + ydayOfDate (isLeap y) m d := by
    simp only [Time.days, hw]; omega
  have hy := yearOfDays_unique y _ k2 k3
  have hY : t.Year = y := by simp only [Time.Year, hdays, hy]
  have hyd : t.yday = ydayOfDate (isLeap y) m d := by simp only [Time.yday, hdays, hy]
  refine ⟨hY, ?_, ?_, ?_, ?_, ?_, ?_, ?_⟩
  · simp only [Time.Month, hY, hyd]
  · simp only [Time.Day, hY, hyd]
  · simp only [Time.Hour, hw]; omega
  · simp only [Time.Minute, hw]; omega
  · simp only [Time.Second, hw]; omega
  · simp only [Time.Nanosecond, ha]; omega
  · simp only [ha]


theorem ydayOfDate_shift (leap : Bool) (m d : Int) :
    ydayOfDate false m d ≤ ydayOfDate leap m d ∧ ydayOfDate leap m d ≤ ydayOfDate false m d + 1 := by
  simp only [ydayOfDate]
  cases leap
  · simp
  · by_cases h : m ≥ 3
    · simp only [h, decide_True, Bool.and_self, if_true]; omega
    · simp only [h, decide_False, Bool.and_false, Bool.false_eq_true, if_false]; omega

theorem Date_midnight_abs (y m d loc : Int) (hm : 1 ≤ m ∧ m ≤ 12) :
    Date y m d 0 0 0 0 loc =
      { abs := ((daysSinceEpoch y + ydayOfDate (isLeap y) m d) * 86400 - loc) * 1000000000,
        zone := loc } := by
  rw [Date_abs y m d 0 0 loc hm]
  congr 1
  omega

theorem isLeap_succ (y : Int) (h : isLeap y = true) : isLeap (y + 1) = false := by
  rw [isLeap_iff] at h
  cases hl : isLeap (y + 1)
  · rfl
  · rw [isLeap_iff] at hl; omega

/-- The start of the calendar day of `t` is not after `t`, and `t` is less
than one day later. -/
theorem Time.abs_day (t : Time) :
    (t.days * 86400 - t.zone) * 1000000000 ≤ t.abs ∧
    t.abs < ((t.days + 1) * 86400 - t.zone) * 1000000000 := by
  simp only [Time.days, Time.wallSec]
  omega

end GoTime

/-! ## Next birthday -/

namespace scheduler

/-- What `getNextBirthday` computes: the candidate in the year of `now`, or,
when that is before `now`, midnight of the candidate's month and day one year
later. -/
theorem getNextBirthday_eq (Local : Int) (B T : Time) :
    getNextBirthday Local B T =
      if (Date T.Year B.Month B.Day 0 0 0 0 Local).Before T then
        Date (T.Year + 1)
          (monthDay (isLeap T.Year) (ydayOfDate (isLeap T.Year) B.Month B.Day)).1
          (monthDay (isLeap T.Year) (ydayOfDate (isLeap T.Year) B.Month B.Day)).2 0 0 0 0 Local
      else Date T.Year B.Month B.Day 0 0 0 0 Local := by
  obtain ⟨hm, hd, _⟩ := Time.civil B
  have hd' : 1 ≤ B.Day ∧ B.Day ≤ daysIn true B.Month :=
    ⟨hd.1, le_trans hd.2 (daysIn_le _ _).2.1⟩
  obtain ⟨e1, e2, e3, e4, e5, e6, e7, e8⟩ := Date_midnight T.Year B.Month B.Day Local hm hd'
  simp only [getNextBirthday, Time.AddDate, e1, e2, e3, e4, e5, e6, e7, e8, add_zero]


/-- The month and day of a birth date other than 29 February exist in every
year. -/
theorem birthday_common (B : Time) (hB : ¬(B.Month = 2 ∧ B.Day = 29)) (leap : Bool) :
    (1 ≤ B.Month ∧ B.Month ≤ 12) ∧ (1 ≤ B.Day ∧ B.Day ≤ daysIn leap B.Month) := by
  obtain ⟨hm, hd, _⟩ := Time.civil B
  refine ⟨hm, hd.1, ?_⟩
  have h1 := hd.2
  have h2 := (daysIn_le (isLeap B.Year) B.Month).2.1
  have h3 : B.Day ≤ daysIn false B.Month := by
    have h4 : B.Day ≤ daysIn true B.Month := le_trans h1 h2
    simp only [daysIn] at h4 ⊢
    split_ifs at h4 ⊢ <;> omega
  exact le_trans h3 (daysIn_le leap B.Month).2.2

theorem month_day_kept (Local : Int) (B T : Time)
    (hB : ¬(B.Month = 2 ∧ B.Day = 29)) :
    (getNextBirthday Local B T).Month = B.Month ∧
    (getNextBirthday Local B T).Day = B.Day := by
  rw [getNextBirthday_eq]
  obtain ⟨hm, hd⟩ := birthday_common B hB (isLeap T.Year)
  obtain ⟨_, hd1⟩ := birthday_common B hB (isLeap (T.Year + 1))
  have hmd := (monthDay_ydayOfDate (isLeap T.Year) B.Month B.Day hm hd).1
  split
  · rw [hmd]
    obtain ⟨_, h2, h3, _⟩ := Date_civil (T.Year + 1) B.Month B.Day 0 0 Local hm hd1
      (by omega) (by omega)
    exact ⟨h2, h3⟩
  · obtain ⟨_, h2, h3, _⟩ := Date_civil T.Year B.Month B.Day 0 0 Local hm hd
      (by omega) (by omega)
    exact ⟨h2, h3⟩

/-- The result of `getNextBirthday` written as a number of whole days:
either the candidate, which is not before `now`, or a midnight of the next
year, at most 366 days after a candidate that is before `now`. -/
theorem getNextBirthday_days (Local : Int) (B T : Time) :
    ∃ k : Int, 0 ≤ k ∧
      (getNextBirthday Local B T).abs
        = ((daysSinceEpoch T.Year + k) * 86400 - Local) * 1000000000 ∧
      (getNextBirthday Local B T).zone = Local ∧
      ((k ≤ 365 ∧ T.abs ≤ (getNextBirthday Local B T).abs) ∨
       (∃ j : Int, 0 ≤ j ∧ k ≤ j + 366 ∧ daysSinceEpoch (T.Year + 1) ≤ daysSinceEpoch T.Year + k ∧
          ((daysSinceEpoch T.Year + j) * 86400 - Local) * 1000000000 < T.abs)) := by
  rw [getNextBirthday_eq]
  obtain ⟨hm, hd, _⟩ := Time.civil B
  have hd' : 1 ≤ B.Day ∧ B.Day ≤ daysIn true B.Month :=
    ⟨hd.1, le_trans hd.2 (daysIn_le _ _).2.1⟩
  obtain ⟨k0, k1⟩ := ydayOfDate_inside (isLeap T.Year) B.Month B.Day hm hd'
  have hc := Date_midnight_abs T.Year B.Month B.Day Local hm
  obtain ⟨a1, a2, a3, a4, a5⟩ := monthDay_spec (isLeap T.Year) _ k0 k1
  generalize (monthDay (isLeap T.Year) (ydayOfDate (isLeap T.Year) B.Month B.Day)).1 = m'
    at a1 a2 a4 a5
  generalize (monthDay (isLeap T.Year) (ydayOfDate (isLeap T.Year) B.Month B.Day)).2 = d'
    at a3 a4 a5
  have hn := Date_midnight_abs (T.Year + 1) m' d' Local ⟨a1, a2⟩
  have hd'' : 1 ≤ d' ∧ d' ≤ daysIn true m' := ⟨a3, le_trans a4 (daysIn_le _ _).2.1⟩
  obtain ⟨n0, _⟩ := ydayOfDate_inside (isLeap (T.Year + 1)) m' d' ⟨a1, a2⟩ hd''
  have hs := daysSinceEpoch_succ T.Year
  have s1 := ydayOfDate_shift (isLeap (T.Year + 1)) m' d'
  have s2 := ydayOfDate_shift (isLeap T.Year) m' d'
  have hlen : daysSinceEpoch (T.Year + 1) + ydayOfDate (isLeap (T.Year + 1)) m' d'
      ≤ daysSinceEpoch T.Year + ydayOfDate (isLeap T.Year) B.Month B.Day + 366 := by
    by_cases hl : isLeap T.Year = true
    · have hl1 := isLeap_succ _ hl
      rw [if_pos hl] at hs
      rw [hl1] at s1 ⊢
      omega
    · rw [if_neg hl] at hs
      omega
  have hpos : daysSinceEpoch T.Year < daysSinceEpoch (T.Year + 1) := by
    split at hs <;> omega
  rw [hc, hn]
  generalize ydayOfDate (isLeap T.Year) B.Month B.Day = k at *
  generalize ydayOfDate (isLeap (T.Year + 1)) m' d' = k' at *
  split
  · rename_i hb
    simp only [Time.Before, decide_eq_true_eq] at hb
    refine ⟨(daysSinceEpoch (T.Year + 1) - daysSinceEpoch T.Year) + k', by omega, ?_, rfl,
      Or.inr ⟨k, k0, by omega, by omega, hb⟩⟩
    show _ * 1000000000 = _ * 1000000000
    congr 1
    omega
  · rename_i hb
    simp only [Time.Before, decide_eq_true_eq, not_lt] at hb
    exact ⟨k, k0, rfl, rfl, Or.inl ⟨by omega, hb⟩⟩


/-- The result of `getNextBirthday` is never before `now`, when `now` is a
time of the local zone as `time.Now()` returns it. -/
theorem getNextBirthday_ge_now (Local : Int) (B T : Time) (hT : T.zone = Local) :
    T.abs ≤ (getNextBirthday Local B T).abs := by
  obtain ⟨k, hk, ha, _, h | ⟨j, hj, hkj, hy, hlt⟩⟩ := getNextBirthday_days Local B T
  · exact h.2
  · rw [ha]
    have h1 := (Time.abs_day T).2
    have h2 := (Time.days_year T).2
    rw [hT] at h1
    omega

theorem dayStart_abs (T : Time) :
    (Date T.Year T.Month T.Day 0 0 0 0 T.zone).abs
      = (T.days * 86400 - T.zone) * 1000000000 := by
  obtain ⟨hm, _, hd⟩ := Time.civil T
  rw [Date_midnight_abs _ _ _ _ hm, hd]

end scheduler

/-- C1: for every birth date whose month and day is not 29 February and every
reference instant, `getNextBirthday` (the copy of the scheduler and the copy
of the handler) returns a date with the month and the day of the birth
date. -/
theorem getNextBirthday_month_day (Local : Int) (B T : Time)
    (hB : ¬(B.Month = 2 ∧ B.Day = 29)) :
    ((scheduler.getNextBirthday Local B T).Month = B.Month ∧
     (scheduler.getNextBirthday Local B T).Day = B.Day) ∧
    ((bot.getNextBirthday Local B T).Month = B.Month ∧
     (bot.getNextBirthday Local B T).Day = B.Day) :=
  ⟨scheduler.month_day_kept Local B T hB,
   scheduler.month_day_kept Local B T hB⟩

theorem getNextBirthday_month_day_witness :
    ¬((Date 1990 3 15 0 0 0 0 0).Month = 2 ∧ (Date 1990 3 15 0 0 0 0 0).Day = 29) ∧
    (((scheduler.getNextBirthday 10800 (Date 1990 3 15 0 0 0 0 0)
          (Date 2024 6 1 9 0 30 0 10800)).Month = (Date 1990 3 15 0 0 0 0 0).Month ∧
      (scheduler.getNextBirthday 10800 (Date 1990 3 15 0 0 0 0 0)
          (Date 2024 6 1 9 0 30 0 10800)).Day = (Date 1990 3 15 0 0 0 0 0).Day) ∧
     ((bot.getNextBirthday 10800 (Date 1990 3 15 0 0 0 0 0)
          (Date 2024 6 1 9 0 30 0 10800)).Month = (Date 1990 3 15 0 0 0 0 0).Month ∧
      (bot.getNextBirthday 10800 (Date 1990 3 15 0 0 0 0 0)
          (Date 2024 6 1 9 0 30 0 10800)).Day = (Date 1990 3 15 0 0 0 0 0).Day)) :=
  ⟨by decide, getNextBirthday_month_day 10800 _ _ (by decide)⟩

/-- C2: for every birth date and every reference instant (a time of the local
zone), `getNextBirthday` is not earlier than 00:00 of the calendar day of the
reference instant. -/
theorem getNextBirthday_not_before_day (Local : Int) (B T : Time) (hT : T.zone = Local) :
    (scheduler.getNextBirthday Local B T).Before
      (Date T.Year T.Month T.Day 0 0 0 0 T.zone) = false := by
  have h1 := scheduler.getNextBirthday_ge_now Local B T hT
  have h2 := scheduler.dayStart_abs T
  have h3 := (Time.abs_day T).1
  simp only [Time.Before, decide_eq_false_iff_not, not_lt]
  omega

theorem getNextBirthday_not_before_day_witness :
    (Date 2024 6 1 9 0 30 0 10800).zone = 10800 ∧
    (scheduler.getNextBirthday 10800 (Date 2000 2 29 0 0 0 0 0)
        (Date 2024 6 1 9 0 30 0 10800)).Before
      (Date (Date 2024 6 1 9 0 30 0 10800).Year (Date 2024 6 1 9 0 30 0 10800).Month
        (Date 2024 6 1 9 0 30 0 10800).Day 0 0 0 0 (Date 2024 6 1 9 0 30 0 10800).zone)
      = false :=
  ⟨by decide, getNextBirthday_not_before_day 10800 _ _ (by decide)⟩

namespace scheduler

theorem shouldNotify_iff (Local : Int) (N C : Time) (hN : N.zone = Local) :
    shouldNotify Local N C = true ↔ |N.abs - combineDateClock N C| ≤ 60 * Second := by
  obtain ⟨hm, _, hd⟩ := Time.civil N
  have hh : 0 ≤ C.Hour ∧ C.Hour < 24 := by simp only [Time.Hour]; omega
  have hmi : 0 ≤ C.Minute ∧ C.Minute < 60 := by simp only [Time.Minute]; omega
  have h1 := Time.abs_day N
  simp only [shouldNotify, Date_abs _ _ _ _ _ _ hm, hd, Time.Sub, Duration.Abs,
    combineDateClock, maxDuration, minDuration, Minute, Second, decide_eq_true_eq, hN, abs_le]
  rw [hN] at h1
  generalize N.days = D at *
  generalize N.abs = a at *
  generalize C.Hour = h at *
  generalize C.Minute = mi at *
  split_ifs <;> omega

end scheduler

/-! ## Notification window and day words -/

/-- C4: for every configured time of day and every instant (a time of the
local zone), `shouldNotify` is true exactly when the absolute difference
between the instant and the instant formed from its calendar date with the
configured hour and minute is at most 60 seconds; it is false when the
difference is 61 seconds. -/
theorem shouldNotify_window (Local : Int) (N C : Time) (hN : N.zone = Local) :
    (scheduler.shouldNotify Local N C = true
      ↔ |N.abs - combineDateClock N C| ≤ 60 * Second) ∧
    (|N.abs - combineDateClock N C| = 61 * Second →
      scheduler.shouldNotify Local N C = false) := by
  have h := scheduler.shouldNotify_iff Local N C hN
  refine ⟨h, fun h61 => ?_⟩
  cases hs : scheduler.shouldNotify Local N C
  · rfl
  · have := h.mp hs
    rw [h61] at this
    simp only [Second] at this
    omega

theorem shouldNotify_window_witness :
    (Date 2024 6 1 9 1 1 0 10800).zone = 10800 ∧
    ((scheduler.shouldNotify 10800 (Date 2024 6 1 9 1 1 0 10800) (Date 0 0 0 9 0 0 0 10800) = true
      ↔ |(Date 2024 6 1 9 1 1 0 10800).abs
          - combineDateClock (Date 2024 6 1 9 1 1 0 10800) (Date 0 0 0 9 0 0 0 10800)|
          ≤ 60 * Second) ∧
    (|(Date 2024 6 1 9 1 1 0 10800).abs
          - combineDateClock (Date 2024 6 1 9 1 1 0 10800) (Date 0 0 0 9 0 0 0 10800)|
          = 61 * Second →
      scheduler.shouldNotify 10800 (Date 2024 6 1 9 1 1 0 10800) (Date 0 0 0 9 0 0 0 10800)
        = false)) :=
  ⟨by decide, shouldNotify_window 10800 _ _ (by decide)⟩

namespace scheduler

theorem getDaysWord_nonneg (n : Int) (hn : 0 ≤ n) :
    getDaysWord n =
      (if n % 10 = 1 ∧ n % 100 ≠ 11 then "день"
       else if (2 ≤ n % 10 ∧ n % 10 ≤ 4) ∧ ¬(12 ≤ n % 100 ∧ n % 100 ≤ 14) then "дня"
       else "дней") := by
  have h10 : n.tmod 10 = n % 10 := Int.tmod_eq_emod hn (by omega)
  have h100 : n.tmod 100 = n % 100 := Int.tmod_eq_emod hn (by omega)
  simp only [getDaysWord, h10, h100]
  split_ifs <;> first | rfl | (exfalso; omega)

end scheduler

/-- C5: for every day count `n ≥ 0`, `getDaysWord n` is "день" when
`n mod 10 = 1` and `n mod 100 ≠ 11`; otherwise "дня" when `n mod 10` is in
2..4 and `n mod 100` is not in 12..14; otherwise "дней".  In particular
1 gives "день", 2 "дня", 5 "дней", 11 "дней" and 21 "день". -/
theorem getDaysWord_forms (n : Int) (hn : 0 ≤ n) :
    scheduler.getDaysWord n =
      (if n % 10 = 1 ∧ n % 100 ≠ 11 then "день"
       else if (2 ≤ n % 10 ∧ n % 10 ≤ 4) ∧ ¬(12 ≤ n % 100 ∧ n % 100 ≤ 14) then "дня"
       else "дней") ∧
    scheduler.getDaysWord 1 = "день" ∧ scheduler.getDaysWord 2 = "дня" ∧
    scheduler.getDaysWord 5 = "дней" ∧ scheduler.getDaysWord 11 = "дней" ∧
    scheduler.getDaysWord 21 = "день" :=
  ⟨scheduler.getDaysWord_nonneg n hn, by decide, by decide, by decide, by decide, by decide⟩

theorem getDaysWord_forms_witness :
    (0 : Int) ≤ 112 ∧
    (scheduler.getDaysWord 112 =
      (if (112 : Int) % 10 = 1 ∧ (112 : Int) % 100 ≠ 11 then "день"
       else if (2 ≤ (112 : Int) % 10 ∧ (112 : Int) % 10 ≤ 4) ∧
          ¬(12 ≤ (112 : Int) % 100 ∧ (112 : Int) % 100 ≤ 14) then "дня"
       else "дней") ∧
    scheduler.getDaysWord 1 = "день" ∧ scheduler.getDaysWord 2 = "дня" ∧
    scheduler.getDaysWord 5 = "дней" ∧ scheduler.getDaysWord 11 = "дней" ∧
    scheduler.getDaysWord 21 = "день") :=
  ⟨by decide, getDaysWord_forms 112 (by decide)⟩

/-! ## The store -/

namespace storage

theorem AddBirthday_of_valid (s : SQLite) (now : Time) (b : Birthday)
    (hv : b.Validate now = none) :
    s.AddBirthday now b =
      if ((s.birthdays.filter (fun x => decide (x.GroupID = b.GroupID))).length : Int) ≥ 100
      then (some "превышен лимит дней рождения в группе (100)",
            { s with groups := insertOrIgnoreGroup s.groups { ID := b.GroupID, Title := "" } })
      else (none,
            { s with
              groups := insertOrIgnoreGroup s.groups { ID := b.GroupID, Title := "" },
              birthdays := s.birthdays ++
                [{ ID := max s.sequence (maxRowid s.birthdays) + 1, Name := b.Name,
                   Birthday := b.Birthday, GroupID := b.GroupID }],
              sequence := max s.sequence (maxRowid s.birthdays) + 1 }) := by
  simp only [SQLite.AddBirthday, hv]

theorem le_maxRowid (l : List Birthday) : ∀ x ∈ l, x.ID ≤ maxRowid l := by
  induction l with
  | nil => intro x hx; cases hx
  | cons a rest ih =>
    intro x hx
    simp only [maxRowid]
    rcases List.mem_cons.mp hx with rfl | h
    · exact le_max_left _ _
    · exact le_trans (ih x h) (le_max_right _ _)

/-- Rowids stay distinct when `AddBirthday` inserts a row. -/
theorem AddBirthday_keys (s : SQLite) (now : Time) (b : Birthday)
    (hkey : (s.birthdays.map (fun x => x.ID)).Nodup) :
    ((s.AddBirthday now b).2.birthdays.map (fun x => x.ID)).Nodup := by
  cases hv : b.Validate now with
  | some err => simp only [SQLite.AddBirthday, hv]; exact hkey
  | none =>
    rw [AddBirthday_of_valid s now b hv]
    split
    · exact hkey
    · simp only [List.map_append, List.map_cons, List.map_nil]
      refine List.Nodup.append hkey (List.nodup_singleton _) ?_
      intro i hi hi'
      rw [List.mem_singleton] at hi'
      obtain ⟨x, hx, rfl⟩ := List.mem_map.mp hi
      have h1 := le_maxRowid s.birthdays x hx
      have h2 := le_max_right s.sequence (maxRowid s.birthdays)
      omega

/-- Rowids stay distinct when `DeleteBirthday` removes rows. -/
theorem DeleteBirthday_keys (s : SQLite) (groupID id : Int)
    (hkey : (s.birthdays.map (fun x => x.ID)).Nodup) :
    ((s.DeleteBirthday groupID id).2.birthdays.map (fun x => x.ID)).Nodup := by
  have h : (s.DeleteBirthday groupID id).2.birthdays
      = s.birthdays.filter (fun b => !decide (b.ID = id ∧ b.GroupID = groupID)) := by
    simp only [SQLite.DeleteBirthday]
    split <;> rfl
  rw [h]
  exact List.Nodup.sublist (List.Sublist.map _ (List.filter_sublist _)) hkey

theorem filter_middle (pre post : List Birthday) (r : Birthday) (groupID id : Int)
    (hkey : ((pre ++ r :: post).map (fun x => x.ID)).Nodup)
    (hr : r.ID = id ∧ r.GroupID = groupID) :
    (pre ++ r :: post).filter (fun b => !decide (b.ID = id ∧ b.GroupID = groupID))
      = pre ++ post ∧
    (pre ++ r :: post).filter (fun b => decide (b.ID = id ∧ b.GroupID = groupID)) = [r] := by
  simp only [List.map_append, List.map_cons] at hkey
  rw [List.nodup_middle, List.nodup_cons] at hkey
  have hne : ∀ x ∈ pre ++ post, x.ID ≠ id := by
    intro x hx hxid
    apply hkey.1
    rw [← List.map_append]
    exact List.mem_map.mpr ⟨x, hx, by rw [hxid, hr.1]⟩
  have hpre : ∀ x ∈ pre, x.ID ≠ id := fun x hx => hne x (List.mem_append_left _ hx)
  have hpost : ∀ x ∈ post, x.ID ≠ id := fun x hx => hne x (List.mem_append_right _ hx)
  constructor
  · rw [List.filter_append, List.filter_cons]
    have h1 : pre.filter (fun b => !decide (b.ID = id ∧ b.GroupID = groupID)) = pre :=
      List.filter_eq_self.mpr (fun x hx => by simp [hpre x hx])
    have h2 : post.filter (fun b => !decide (b.ID = id ∧ b.GroupID = groupID)) = post :=
      List.filter_eq_self.mpr (fun x hx => by simp [hpost x hx])
    rw [h1, h2]
    simp [hr.1, hr.2]
  · rw [List.filter_append, List.filter_cons]
    have h1 : pre.filter (fun b => decide (b.ID = id ∧ b.GroupID = groupID)) = [] :=
      List.filter_eq_nil_iff.mpr (fun x hx => by simp [hpre x hx])
    have h2 : post.filter (fun b => decide (b.ID = id ∧ b.GroupID = groupID)) = [] :=
      List.filter_eq_nil_iff.mpr (fun x hx => by simp [hpost x hx])
    rw [h1, h2]
    simp [hr.1, hr.2]

end storage

/-- C6: when the group of a valid record already holds 100 records,
`AddBirthday` fails with the limit error and the table of birthdays is
unchanged; when it holds fewer than 100, the add succeeds and the number of
records of the group grows by one. -/
theorem AddBirthday_limit (s : SQLite) (now : Time) (b : Birthday)
    (hv : b.Validate now = none) :
    ((s.birthdays.filter (fun x => decide (x.GroupID = b.GroupID))).length = 100 →
      (s.AddBirthday now b).1 = some "превышен лимит дней рождения в группе (100)" ∧
      (s.AddBirthday now b).2.birthdays = s.birthdays ∧
      ((s.AddBirthday now b).2.birthdays.filter
        (fun x => decide (x.GroupID = b.GroupID))).length = 100) ∧
    ((s.birthdays.filter (fun x => decide (x.GroupID = b.GroupID))).length < 100 →
      (s.AddBirthday now b).1 = none ∧
      ((s.AddBirthday now b).2.birthdays.filter
        (fun x => decide (x.GroupID = b.GroupID))).length
        = (s.birthdays.filter (fun x => decide (x.GroupID = b.GroupID))).length + 1) := by
  rw [storage.AddBirthday_of_valid s now b hv]
  constructor
  · intro h
    have hc : ((s.birthdays.filter (fun x => decide (x.GroupID = b.GroupID))).length : Int)
        ≥ 100 := by omega
    rw [if_pos hc]
    exact ⟨rfl, rfl, h⟩
  · intro h
    have hc : ¬ ((s.birthdays.filter (fun x => decide (x.GroupID = b.GroupID))).length : Int)
        ≥ 100 := by omega
    rw [if_neg hc]
    refine ⟨rfl, ?_⟩
    simp [List.filter_append]

theorem AddBirthday_limit_witness :
    annLee.Validate sampleNow = none ∧
    (((fullDB.birthdays.filter (fun x => decide (x.GroupID = annLee.GroupID))).length = 100 →
      (fullDB.AddBirthday sampleNow annLee).1
        = some "превышен лимит дней рождения в группе (100)" ∧
      (fullDB.AddBirthday sampleNow annLee).2.birthdays = fullDB.birthdays ∧
      ((fullDB.AddBirthday sampleNow annLee).2.birthdays.filter
        (fun x => decide (x.GroupID = annLee.GroupID))).length = 100) ∧
    ((fullDB.birthdays.filter (fun x => decide (x.GroupID = annLee.GroupID))).length < 100 →
      (fullDB.AddBirthday sampleNow annLee).1 = none ∧
      ((fullDB.AddBirthday sampleNow annLee).2.birthdays.filter
        (fun x => decide (x.GroupID = annLee.GroupID))).length
        = (fullDB.birthdays.filter (fun x => decide (x.GroupID = annLee.GroupID))).length + 1)) :=
  ⟨by decide, AddBirthday_limit fullDB sampleNow annLee (by decide)⟩

namespace storage

theorem GetBirthdays_eq (s : SQLite) (g : Int) :
    s.GetBirthdays g = .ok ((s.birthdays.filter (fun b => decide (b.GroupID = g))).insertionSort
      (fun a b => textLE a.Birthday.formatTimestamp b.Birthday.formatTimestamp = true)) := rfl

theorem DeleteBirthday_birthdays (s : SQLite) (groupID id : Int) :
    (s.DeleteBirthday groupID id).2 =
      { s with
        birthdays := s.birthdays.filter (fun b => !decide (b.ID = id ∧ b.GroupID = groupID)) } := by
  simp only [SQLite.DeleteBirthday]
  split <;> rfl

end storage

/-- C7: starting from a group with no records, `AddBirthday` of a valid
record followed by `GetBirthdays` returns exactly one record, with that name
and date; `DeleteBirthday` with the id of that record followed by
`GetBirthdays` returns no records. -/
theorem add_list_delete_round_trip (s : SQLite) (now : Time) (b : Birthday)
    (hempty : s.birthdays.filter (fun x => decide (x.GroupID = b.GroupID)) = [])
    (hv : b.Validate now = none) :
    (s.AddBirthday now b).1 = none ∧
    ∃ r : Birthday,
      (s.AddBirthday now b).2.GetBirthdays b.GroupID = .ok [r] ∧
      r.Name = b.Name ∧ r.Birthday = b.Birthday ∧
      ((s.AddBirthday now b).2.DeleteBirthday b.GroupID r.ID).1 = none ∧
      ((s.AddBirthday now b).2.DeleteBirthday b.GroupID r.ID).2.GetBirthdays b.GroupID
        = .ok [] := by
  rw [storage.AddBirthday_of_valid s now b hv, hempty]
  simp only [List.length_nil, Nat.cast_zero, ge_iff_le]
  rw [if_neg (by omega)]
  refine ⟨rfl, ⟨max s.sequence (maxRowid s.birthdays) + 1, b.Name, b.Birthday, b.GroupID⟩,
    ?_, rfl, rfl, ?_, ?_⟩
  · simp [storage.GetBirthdays_eq, List.filter_append, hempty]
  · simp [SQLite.DeleteBirthday, List.filter_append]
    split
    · rename_i h; exfalso; omega
    · rfl
  · rw [storage.DeleteBirthday_birthdays, storage.GetBirthdays_eq]
    simp only [List.filter_filter]
    have : List.filter (fun a => decide (a.GroupID = b.GroupID) &&
        !decide (a.ID = max s.sequence (maxRowid s.birthdays) + 1 ∧ a.GroupID = b.GroupID))
        (s.birthdays ++ [⟨max s.sequence (maxRowid s.birthdays) + 1, b.Name, b.Birthday,
          b.GroupID⟩]) = [] := by
      rw [List.filter_append]
      have h1 : List.filter (fun a => decide (a.GroupID = b.GroupID) &&
        !decide (a.ID = max s.sequence (maxRowid s.birthdays) + 1 ∧ a.GroupID = b.GroupID))
        s.birthdays = [] := by
        rw [List.filter_eq_nil_iff] at hempty ⊢
        intro x hx
        have := hempty x hx
        simp only [decide_eq_true_eq] at this
        simp [this]
      rw [h1]
      simp
    rw [this]
    rfl

theorem add_list_delete_round_trip_witness :
    emptyDB.birthdays.filter (fun x => decide (x.GroupID = annLee.GroupID)) = [] ∧
    annLee.Validate sampleNow = none ∧
    ((emptyDB.AddBirthday sampleNow annLee).1 = none ∧
    ∃ r : Birthday,
      (emptyDB.AddBirthday sampleNow annLee).2.GetBirthdays annLee.GroupID = .ok [r] ∧
      r.Name = annLee.Name ∧ r.Birthday = annLee.Birthday ∧
      ((emptyDB.AddBirthday sampleNow annLee).2.DeleteBirthday annLee.GroupID r.ID).1 = none ∧
      ((emptyDB.AddBirthday sampleNow annLee).2.DeleteBirthday annLee.GroupID r.ID).2.GetBirthdays
        annLee.GroupID = .ok []) :=
  ⟨by decide, by decide, add_list_delete_round_trip emptyDB sampleNow annLee (by decide) (by decide)⟩

/-- C8: `DeleteBirthday` removes exactly the record whose id and group both
match and leaves every other record (and every other table) unchanged; when
no record matches both the id and the group, also when the id exists in
another group, it returns the not-found error and the database is
unchanged.  Rowids are distinct, `id` being the primary key. -/
theorem DeleteBirthday_spec (s : SQLite) (groupID id : Int)
    (hkey : (s.birthdays.map (fun x => x.ID)).Nodup) :
    ((∃ r ∈ s.birthdays, r.ID = id ∧ r.GroupID = groupID) →
      (s.DeleteBirthday groupID id).1 = none ∧
      ∃ pre r post, s.birthdays = pre ++ r :: post ∧ r.ID = id ∧ r.GroupID = groupID ∧
        (s.DeleteBirthday groupID id).2 = { s with birthdays := pre ++ post }) ∧
    ((¬ ∃ r ∈ s.birthdays, r.ID = id ∧ r.GroupID = groupID) →
      (s.DeleteBirthday groupID id).1 = some "день рождения не найден" ∧
      (s.DeleteBirthday groupID id).2 = s) := by
  constructor
  · rintro ⟨r, hr, hid⟩
    obtain ⟨pre, post, hsplit⟩ := List.append_of_mem hr
    rw [hsplit] at hkey
    obtain ⟨h1, h2⟩ := storage.filter_middle pre post r groupID id hkey hid
    refine ⟨?_, pre, r, post, hsplit, hid.1, hid.2, ?_⟩
    · simp only [SQLite.DeleteBirthday, hsplit, h2]
      rfl
    · rw [storage.DeleteBirthday_birthdays, hsplit, h1]
  · intro hno
    have hnone : s.birthdays.filter (fun b => decide (b.ID = id ∧ b.GroupID = groupID)) = [] := by
      rw [List.filter_eq_nil_iff]
      intro x hx hm
      exact hno ⟨x, hx, by simpa using hm⟩
    have hall : s.birthdays.filter (fun b => !decide (b.ID = id ∧ b.GroupID = groupID))
        = s.birthdays := by
      rw [List.filter_eq_self]
      intro x hx
      have : ¬ (x.ID = id ∧ x.GroupID = groupID) := fun hm => hno ⟨x, hx, hm⟩
      simp only [this, decide_False, Bool.not_false]
    refine ⟨?_, ?_⟩
    · simp only [SQLite.DeleteBirthday, hnone]
      rfl
    · rw [storage.DeleteBirthday_birthdays, hall]

theorem DeleteBirthday_spec_witness :
    (twoGroupDB.birthdays.map (fun x => x.ID)).Nodup ∧
    (((∃ r ∈ twoGroupDB.birthdays, r.ID = 2 ∧ r.GroupID = 7) →
      (twoGroupDB.DeleteBirthday 7 2).1 = none ∧
      ∃ pre r post, twoGroupDB.birthdays = pre ++ r :: post ∧ r.ID = 2 ∧ r.GroupID = 7 ∧
        (twoGroupDB.DeleteBirthday 7 2).2 = { twoGroupDB with birthdays := pre ++ post }) ∧
    ((¬ ∃ r ∈ twoGroupDB.birthdays, r.ID = 2 ∧ r.GroupID = 7) →
      (twoGroupDB.DeleteBirthday 7 2).1 = some "день рождения не найден" ∧
      (twoGroupDB.DeleteBirthday 7 2).2 = twoGroupDB)) :=
  ⟨by decide, DeleteBirthday_spec twoGroupDB 7 2 (by decide)⟩

namespace storage

/-- What `GetUpcomingBirthdays` returns for a positive number of days: the
rows of the group whose month-day text lies between the text of today and the
text of the last day, compared as texts, without wrapping at the end of the
year. -/
theorem GetUpcomingBirthdays_mem (s : SQLite) (now : Time) (groupID days : Int)
    (hd : 0 < days) :
    ∃ l : List Birthday, s.GetUpcomingBirthdays now groupID days = .ok l ∧
      ∀ b : Birthday, b ∈ l ↔
        (b ∈ s.birthdays ∧ b.GroupID = groupID ∧
          mdLE (strftimeMD now) (strftimeMD b.Birthday) ∧
          mdLE (strftimeMD b.Birthday) (strftimeMD (now.Add (days * (24 * Hour))))) := by
  simp only [SQLite.GetUpcomingBirthdays]
  rw [if_neg (by omega)]
  refine ⟨_, rfl, fun b => ?_⟩
  rw [(List.perm_insertionSort _ _).mem_iff, List.mem_filter]
  simp only [Bool.and_eq_true, decide_eq_true_eq]

end storage

/-- C9: on 28 December with `withinDays = 7` the range of month-days runs
from "12-28" to "01-04"; `GetUpcomingBirthdays` compares with `BETWEEN` and
returns nothing, although the group holds a birthday on 2 January, five days
ahead. -/
theorem GetUpcomingBirthdays_year_end :
    strftimeMD (Date 2024 12 28 9 0 0 0 0) = (12, 28) ∧
    strftimeMD ((Date 2024 12 28 9 0 0 0 0).Add (7 * (24 * Hour))) = (1, 4) ∧
    yearEndDB.birthdays.map (fun b => strftimeMD b.Birthday) = [(1, 2)] ∧
    yearEndDB.GetUpcomingBirthdays (Date 2024 12 28 9 0 0 0 0) 7 7 = .ok [] := by
  decide

/-! ## The text of a stored time and the order of `GetBirthdays` -/

namespace GoTime

/-- The digits that `Nat.toDigitsCore` writes do not depend on the fuel, once
it exceeds the number. -/
theorem toDigitsCore_eq (fuel : Nat) : ∀ (n : Nat) (ds : List Char), n < fuel →
    Nat.toDigitsCore 10 fuel n ds = Nat.toDigits 10 n ++ ds := by
  induction fuel using Nat.strong_induction_on with
  | _ fuel ih =>
    intro n ds hn
    cases fuel with
    | zero => omega
    | succ f =>
      by_cases h0 : n / 10 = 0
      · simp only [Nat.toDigits, Nat.toDigitsCore, h0, if_true]
        rfl
      · have hlt : n / 10 < n := by omega
        have e1 : Nat.toDigitsCore 10 (f + 1) n ds
            = Nat.toDigitsCore 10 f (n / 10) (Nat.digitChar (n % 10) :: ds) := by
          simp only [Nat.toDigitsCore, h0, if_false]
        have e2 : Nat.toDigits 10 n
            = Nat.toDigitsCore 10 n (n / 10) [Nat.digitChar (n % 10)] := by
          simp only [Nat.toDigits, Nat.toDigitsCore, h0, if_false]
        rw [e1, e2, ih f (Nat.lt_succ_self f) (n / 10) _ (by omega),
          ih n (by omega) (n / 10) _ hlt, List.append_assoc]
        rfl

theorem toDigits_small (n : Nat) (h : n < 10) : Nat.toDigits 10 n = [Nat.digitChar n] := by
  have h0 : n / 10 = 0 := by omega
  have h1 : n % 10 = n := by omega
  simp only [Nat.toDigits, Nat.toDigitsCore, h0, h1, if_true]

theorem toDigits_large (n : Nat) (h : 10 ≤ n) :
    Nat.toDigits 10 n = Nat.toDigits 10 (n / 10) ++ [Nat.digitChar (n % 10)] := by
  have h0 : ¬ n / 10 = 0 := by omega
  have e2 : Nat.toDigits 10 n
      = Nat.toDigitsCore 10 n (n / 10) [Nat.digitChar (n % 10)] := by
    simp only [Nat.toDigits, Nat.toDigitsCore, h0, if_false]
  rw [e2, toDigitsCore_eq n (n / 10) _ (by omega)]

theorem digitChar_toNat (d : Nat) (h : d < 10) : (Nat.digitChar d).toNat = 48 + d := by
  interval_cases d <;> rfl

/-- The characters of `appendInt` for a number that is not negative. -/
theorem appendInt_data (n w : Nat) :
    (appendInt (n : Int) w).data =
      List.replicate (w - (Nat.toDigits 10 n).length) (Char.ofNat 48) ++ Nat.toDigits 10 n := by
  have hneg : ¬ ((n : Int) < 0) := by omega
  simp only [appendInt, hneg, if_false, Int.natAbs_ofNat, String.data_append, Nat.repr,
    List.asString, String.length]

/-- A number of one digit, written with width 1. -/
theorem appendInt_one (n : Nat) (h : n < 10) :
    (appendInt (n : Int) 1).data = [Nat.digitChar n] := by
  rw [appendInt_data, toDigits_small n h]
  rfl

/-- The last digit of a number written with a width that holds it. -/
theorem appendInt_succ (n w : Nat) (hw : 1 ≤ w) :
    (appendInt (n : Int) (w + 1)).data =
      (appendInt ((n / 10 : Nat) : Int) w).data ++ [Nat.digitChar (n % 10)] := by
  rw [appendInt_data, appendInt_data]
  by_cases h : n < 10
  · have h0 : n / 10 = 0 := by omega
    have h1 : n % 10 = n := by omega
    rw [toDigits_small n h, h0, h1, toDigits_small 0 (by omega)]
    obtain ⟨k, rfl⟩ : ∃ k, w = k + 1 := ⟨w - 1, by omega⟩
    simp only [List.length_singleton, Nat.add_sub_cancel, List.replicate_succ',
      List.append_assoc]
    rfl
  · rw [toDigits_large n (by omega)]
    simp only [List.length_append, List.length_singleton, Nat.add_sub_add_right,
      List.append_assoc]

end GoTime

namespace storage

theorem textCompare_self (x : List Char) : textCompare x x = .eq := by
  induction x with
  | nil => rfl
  | cons c l ih => simp only [textCompare, lt_irrefl, if_false, ih]

theorem textCompare_cons (c : Char) (u v : List Char) :
    textCompare (c :: u) (c :: v) = textCompare u v := by
  simp only [textCompare, lt_irrefl, if_false]

theorem textLE_iff (a b : String) :
    textLE a b = true ↔ textCompare a.data b.data ≠ .gt := by
  simp only [textLE]
  cases textCompare a.data b.data <;> decide

/-- The order of texts is total. -/
theorem textCompare_total (x : List Char) : ∀ y : List Char,
    textCompare x y ≠ .gt ∨ textCompare y x ≠ .gt := by
  induction x with
  | nil => intro y; cases y <;> simp [textCompare]
  | cons c l ih =>
    intro y
    cases y with
    | nil => simp [textCompare]
    | cons d m =>
      simp only [textCompare]
      rcases lt_trichotomy c.toNat d.toNat with h | h | h
      · left; simp [h]
      · simp only [h, lt_irrefl, if_false]; exact ih m
      · right; simp [h]

/-- The order of texts is transitive. -/
theorem textCompare_trans (x : List Char) : ∀ y z : List Char,
    textCompare x y ≠ .gt → textCompare y z ≠ .gt → textCompare x z ≠ .gt := by
  induction x with
  | nil => intro y z _ _; cases z <;> simp [textCompare]
  | cons c l ih =>
    intro y z
    cases y with
    | nil => simp [textCompare]
    | cons d m =>
      cases z with
      | nil => simp [textCompare]
      | cons e n =>
        simp only [textCompare]
        intro h1 h2
        rcases lt_trichotomy c.toNat d.toNat with h | h | h
        · rcases lt_trichotomy d.toNat e.toNat with k | k | k
          · have : c.toNat < e.toNat := by omega
            simp [this]
          · have : c.toNat < e.toNat := by omega
            simp [this]
          · exfalso
            have k' : ¬ d.toNat < e.toNat := by omega
            simp [k, k'] at h2
        · rcases lt_trichotomy d.toNat e.toNat with k | k | k
          · have : c.toNat < e.toNat := by omega
            simp [this]
          · have e1 : ¬ c.toNat < e.toNat := by omega
            have e2 : ¬ e.toNat < c.toNat := by omega
            have e3 : ¬ c.toNat < d.toNat := by omega
            have e4 : ¬ d.toNat < c.toNat := by omega
            have e5 : ¬ d.toNat < e.toNat := by omega
            have e6 : ¬ e.toNat < d.toNat := by omega
            simp only [e1, e2, e3, e4, e5, e6, if_false] at h1 h2 ⊢
            exact ih m n h1 h2
          · exfalso
            have k' : ¬ d.toNat < e.toNat := by omega
            simp [k, k'] at h2
        · exfalso
          have h' : ¬ c.toNat < d.toNat := by omega
          simp [h, h'] at h1

end storage

namespace GoTime

open storage

/-- Two numbers written with the same width, which holds both, compare as
texts the way they compare as numbers. -/
theorem textCompare_appendInt_nat (w : Nat) (hw : 1 ≤ w) :
    ∀ (a b : Nat) (u v : List Char), a < 10 ^ w → b < 10 ^ w →
      textCompare ((appendInt (a : Int) w).data ++ u) ((appendInt (b : Int) w).data ++ v) =
        if a < b then .lt else if b < a then .gt else textCompare u v := by
  induction w, hw using Nat.le_induction with
  | base =>
    intro a b u v ha hb
    have ha' : a < 10 := by omega
    have hb' : b < 10 := by omega
    rw [appendInt_one a ha', appendInt_one b hb']
    simp only [List.singleton_append, textCompare, digitChar_toNat a ha', digitChar_toNat b hb',
      Nat.add_lt_add_iff_left]
    rfl
  | succ w hw ih =>
    intro a b u v ha hb
    rw [appendInt_succ a w hw, appendInt_succ b w hw, List.append_assoc, List.append_assoc,
      ih (a / 10) (b / 10) _ _ (by rw [pow_succ] at ha; omega) (by rw [pow_succ] at hb; omega)]
    simp only [List.singleton_append, textCompare,
      digitChar_toNat (a % 10) (Nat.mod_lt _ (by decide)),
      digitChar_toNat (b % 10) (Nat.mod_lt _ (by decide)), Nat.add_lt_add_iff_left]
    split_ifs <;> first | rfl | omega

/-- The same for integers that are not negative. -/
theorem textCompare_appendInt (w : Nat) (hw : 1 ≤ w) (a b : Int)
    (ha : 0 ≤ a ∧ a < 10 ^ w) (hb : 0 ≤ b ∧ b < 10 ^ w) (u v : List Char) :
    textCompare ((appendInt a w).data ++ u) ((appendInt b w).data ++ v) =
      if a < b then .lt else if b < a then .gt else textCompare u v := by
  obtain ⟨m, rfl⟩ := Int.eq_ofNat_of_zero_le ha.1
  obtain ⟨n, rfl⟩ := Int.eq_ofNat_of_zero_le hb.1
  have hm : m < 10 ^ w := by exact_mod_cast ha.2
  have hn : n < 10 ^ w := by exact_mod_cast hb.2
  rw [textCompare_appendInt_nat w hw m n u v hm hn]
  simp only [Int.ofNat_lt]

/-- A number written with a width that holds it has that many characters, all
of them digits. -/
theorem appendInt_digits (w : Nat) (hw : 1 ≤ w) :
    ∀ a : Nat, a < 10 ^ w →
      (appendInt (a : Int) w).data.length = w ∧
      ∀ c ∈ (appendInt (a : Int) w).data, 48 ≤ c.toNat := by
  induction w, hw using Nat.le_induction with
  | base =>
    intro a ha
    have ha' : a < 10 := by omega
    rw [appendInt_one a ha']
    refine ⟨rfl, fun c hc => ?_⟩
    rw [List.mem_singleton] at hc
    rw [hc, digitChar_toNat a ha']
    omega
  | succ w hw ih =>
    intro a ha
    obtain ⟨h1, h2⟩ := ih (a / 10) (by rw [pow_succ] at ha; omega)
    rw [appendInt_succ a w hw]
    refine ⟨by rw [List.length_append, h1]; rfl, fun c hc => ?_⟩
    rcases List.mem_append.mp hc with h | h
    · exact h2 c h
    · rw [List.mem_singleton] at h
      rw [h, digitChar_toNat (a % 10) (Nat.mod_lt _ (by decide))]
      omega

end GoTime

namespace GoTime

open storage

/-- Dropping from the right, seen from the left: the first element goes only
when everything goes. -/
theorem rdropWhile_cons {α : Type} (p : α → Bool) (c : α) (l : List α) :
    (List.rdropWhile p l = [] ∧ p c = true → List.rdropWhile p (c :: l) = []) ∧
    (¬ (List.rdropWhile p l = [] ∧ p c = true) →
      List.rdropWhile p (c :: l) = c :: List.rdropWhile p l) := by
  induction l using List.reverseRecOn with
  | nil =>
    have e : List.rdropWhile p [c] = if p c = true then [] else [c] :=
      List.rdropWhile_singleton p c
    rw [e, List.rdropWhile_nil]
    constructor
    · intro h; rw [if_pos h.2]
    · intro h
      have : ¬ p c = true := fun k => h ⟨rfl, k⟩
      rw [if_neg this]
  | append_singleton l x ih =>
    have e : c :: (l ++ [x]) = (c :: l) ++ [x] := rfl
    by_cases hx : p x = true
    · rw [e, List.rdropWhile_concat_pos p _ x hx, List.rdropWhile_concat_pos p _ x hx]
      exact ih
    · rw [e, List.rdropWhile_concat_neg p _ x hx, List.rdropWhile_concat_neg p _ x hx]
      constructor
      · intro h
        exact absurd h.1 (by simp)
      · intro _; rfl

/-- Digits without the zeros at their end, followed by a text that starts
below the digits, compare as the digits themselves when both have the same
length. -/
theorem textCompare_trim (z : List Char) (e : Char) (z' : List Char) (hz : z = e :: z')
    (he : e.toNat < 48) (x : List Char) :
    ∀ y : List Char, x.length = y.length → (∀ c ∈ x, 48 ≤ c.toNat) → (∀ c ∈ y, 48 ≤ c.toNat) →
      textCompare (x.rdropWhile (fun c => decide (c.toNat = 48)) ++ z)
          (y.rdropWhile (fun c => decide (c.toNat = 48)) ++ z)
        = textCompare x y := by
  induction x with
  | nil =>
    intro y hl _ _
    cases y with
    | nil => rw [List.rdropWhile_nil, List.nil_append, textCompare_self]; rfl
    | cons d m => simp at hl
  | cons c l ih =>
    intro y hl hx hy
    cases y with
    | nil => simp at hl
    | cons d m =>
      have hlm : l.length = m.length := by simpa using hl
      have ih' := ih m hlm (fun a ha => hx a (List.mem_cons_of_mem _ ha))
        (fun a ha => hy a (List.mem_cons_of_mem _ ha))
      have hc := hx c (List.mem_cons_self _ _)
      have hd := hy d (List.mem_cons_self _ _)
      obtain ⟨c1, c2⟩ := @rdropWhile_cons Char (fun c => decide (c.toNat = 48)) c l
      obtain ⟨d1, d2⟩ := @rdropWhile_cons Char (fun c => decide (c.toNat = 48)) d m
      have hhead : ∀ (k : List Char), (∀ a ∈ k, 48 ≤ a.toNat) →
          k.rdropWhile (fun c => decide (c.toNat = 48)) ≠ [] →
          textCompare z (k.rdropWhile (fun c => decide (c.toNat = 48)) ++ z) = .lt ∧
          textCompare (k.rdropWhile (fun c => decide (c.toNat = 48)) ++ z) z = .gt := by
        intro k hk hne
        have hp := @List.rdropWhile_prefix Char (fun c => decide (c.toNat = 48)) k
        cases hr : k.rdropWhile (fun c => decide (c.toNat = 48)) with
        | nil => exact absurd hr hne
        | cons f r =>
          have hf : f ∈ k := by
            rw [hr] at hp
            exact hp.subset (List.mem_cons_self _ _)
          have := hk f hf
          rw [hz]
          have k1 : e.toNat < f.toNat := by omega
          have k2 : ¬ f.toNat < e.toNat := by omega
          simp only [List.cons_append, textCompare, k1, k2, if_true, if_false]
          exact ⟨trivial, trivial⟩
      by_cases hcz : List.rdropWhile (fun c => decide (c.toNat = 48)) l = []
          ∧ decide (c.toNat = 48) = true
      · by_cases hdz : List.rdropWhile (fun c => decide (c.toNat = 48)) m = []
            ∧ decide (d.toNat = 48) = true
        · rw [c1 hcz, d1 hdz]
          have k1 : c.toNat = 48 := by simpa using hcz.2
          have k2 : d.toNat = 48 := by simpa using hdz.2
          simp only [textCompare, k1, k2, lt_irrefl, if_false]
          rw [← ih', hcz.1, hdz.1]
        · rw [c1 hcz, d2 hdz]
          have k1 : c.toNat = 48 := by simpa using hcz.2
          have hne : (d :: List.rdropWhile (fun c => decide (c.toNat = 48)) m) ≠ [] := by simp
          rw [← d2 hdz] at hne ⊢
          rw [List.nil_append, (hhead (d :: m) hy hne).1]
          simp only [textCompare, k1]
          by_cases k2 : 48 < d.toNat
          · simp [k2]
          · have k3 : d.toNat = 48 := by omega
            have hm : List.rdropWhile (fun c => decide (c.toNat = 48)) m ≠ [] := by
              intro hm
              exact hdz ⟨hm, by simp [k3]⟩
            simp only [k3, lt_irrefl, if_false]
            rw [← ih', hcz.1, List.nil_append,
              (hhead m (fun a ha => hy a (List.mem_cons_of_mem _ ha)) hm).1]
      · by_cases hdz : List.rdropWhile (fun c => decide (c.toNat = 48)) m = []
            ∧ decide (d.toNat = 48) = true
        · rw [d1 hdz]
          have k1 : d.toNat = 48 := by simpa using hdz.2
          have hne : (c :: List.rdropWhile (fun c => decide (c.toNat = 48)) l) ≠ [] := by simp
          rw [← c2 hcz] at hne
          rw [List.nil_append, (hhead (c :: l) hx hne).2]
          simp only [textCompare, k1]
          by_cases k2 : 48 < c.toNat
          · have k4 : ¬ c.toNat < 48 := by omega
            simp [k2, k4]
          · have k3 : c.toNat = 48 := by omega
            have hm : List.rdropWhile (fun c => decide (c.toNat = 48)) l ≠ [] := by
              intro hm
              exact hcz ⟨hm, by simp [k3]⟩
            simp only [k3, lt_irrefl, if_false]
            rw [← ih', hdz.1, List.nil_append,
              (hhead l (fun a ha => hx a (List.mem_cons_of_mem _ ha)) hm).2]
        · rw [c2 hcz, d2 hdz, List.cons_append, List.cons_append]
          simp only [textCompare]
          rw [← ih']

end GoTime

namespace GoTime

open storage

/-- The fractions of a second of two times, each followed by the same text
that starts below the separator, compare as the nanoseconds do. -/
theorem textCompare_appendNano (a b : Int) (ha : 0 ≤ a ∧ a < 1000000000)
    (hb : 0 ≤ b ∧ b < 1000000000) (z : List Char) (e : Char) (z' : List Char)
    (hz : z = e :: z') (he : e.toNat < 46) :
    textCompare ((appendNano a).data ++ z) ((appendNano b).data ++ z) =
      if a < b then .lt else if b < a then .gt else .eq := by
  obtain ⟨m, rfl⟩ := Int.eq_ofNat_of_zero_le ha.1
  obtain ⟨n, rfl⟩ := Int.eq_ofNat_of_zero_le hb.1
  have hm : m < 10 ^ 9 := by have := ha.2; omega
  have hn : n < 10 ^ 9 := by have := hb.2; omega
  have hdot : ∀ l : List Char, ("." ++ String.mk l).data = Char.ofNat 46 :: l := fun _ => rfl
  have hlow : ∀ l : List Char, textCompare z (Char.ofNat 46 :: l ++ z) = .lt ∧
      textCompare (Char.ofNat 46 :: l ++ z) z = .gt := by
    intro l
    rw [hz]
    have k1 : e.toNat < (Char.ofNat 46).toNat := he
    have k2 : ¬ (Char.ofNat 46).toNat < e.toNat := by
      have : (Char.ofNat 46).toNat = 46 := rfl
      omega
    simp only [List.cons_append, textCompare, k1, k2, if_true, if_false]
    exact ⟨trivial, trivial⟩
  obtain ⟨lm, dm⟩ := appendInt_digits 9 (by decide) m hm
  obtain ⟨ln, dn⟩ := appendInt_digits 9 (by decide) n hn
  have hcmp := textCompare_appendInt_nat 9 (by decide) m n [] [] hm hn
  simp only [List.append_nil] at hcmp
  by_cases h0 : m = 0
  · by_cases h1 : n = 0
    · subst h0; subst h1
      simp only [appendNano, Nat.cast_zero, if_true, lt_irrefl, if_false]
      exact textCompare_self _
    · have hn0 : ¬ ((n : Int) = 0) := by omega
      have hlt : ((m : Int) < (n : Int)) := by omega
      subst h0
      simp only [appendNano, Nat.cast_zero, if_true, hn0, if_false, hdot] at hlt ⊢
      rw [if_pos hlt]
      exact (hlow _).1
  · have hm0 : ¬ ((m : Int) = 0) := by omega
    by_cases h1 : n = 0
    · have hlt : ¬ ((m : Int) < (n : Int)) := by omega
      have hgt : ((n : Int) < (m : Int)) := by omega
      subst h1
      simp only [appendNano, Nat.cast_zero, if_true, hm0, if_false, hdot] at hlt hgt ⊢
      rw [if_neg hlt, if_pos hgt]
      exact (hlow _).2
    · have hn0 : ¬ ((n : Int) = 0) := by omega
      simp only [appendNano, hm0, hn0, if_false, hdot, List.cons_append, textCompare_cons]
      rw [textCompare_trim z e z' hz (by omega) _ _ (by rw [lm, ln]) dm dn, hcmp]
      simp only [Int.ofNat_lt]
      split_ifs <;> rfl

/-- The text of a zone starts with its sign. -/
theorem formatZone_head (offset : Int) :
    ∃ (e : Char) (z' : List Char), (formatZone offset).data = e :: z' ∧ e.toNat < 46 := by
  simp only [formatZone]
  split
  · exact ⟨Char.ofNat 45, _, by simp only [String.data_append]; rfl, by decide⟩
  · exact ⟨Char.ofNat 43, _, by simp only [String.data_append]; rfl, by decide⟩

/-- The fields of the clock of a time, and the instant from them. -/
theorem Time.clock_fields (t : Time) :
    (0 ≤ t.Hour ∧ t.Hour < 24) ∧ (0 ≤ t.Minute ∧ t.Minute < 60) ∧
    (0 ≤ t.Second ∧ t.Second < 60) ∧ (0 ≤ t.Nanosecond ∧ t.Nanosecond < 1000000000) ∧
    t.abs = (t.days * 86400 + t.Hour * 3600 + t.Minute * 60 + t.Second - t.zone) * 1000000000
      + t.Nanosecond := by
  simp only [Time.Hour, Time.Minute, Time.Second, Time.Nanosecond, Time.days, Time.wallSec]
  omega

set_option maxRecDepth 100000 in
theorem ydayOfDate_month_table : ∀ leap : Bool, ∀ m n : Fin 13,
    1 ≤ (m : Nat) → (m : Nat) < (n : Nat) →
    ydayOfDate leap ((m : Nat) : Int) (daysIn leap ((m : Nat) : Int))
      < ydayOfDate leap ((n : Nat) : Int) 1 := by
  decide

/-- Within one year, a later month and day has a later day of the year. -/
theorem ydayOfDate_lt (leap : Bool) (m d n k : Int) (hm : 1 ≤ m ∧ m ≤ 12) (hn : 1 ≤ n ∧ n ≤ 12)
    (hd : 1 ≤ d ∧ d ≤ daysIn leap m) (hk : 1 ≤ k ∧ k ≤ daysIn leap n)
    (h : m < n ∨ (m = n ∧ d < k)) :
    ydayOfDate leap m d < ydayOfDate leap n k := by
  rcases h with h | ⟨rfl, h⟩
  · obtain ⟨a, rfl⟩ := Int.eq_ofNat_of_zero_le (by omega : 0 ≤ m)
    obtain ⟨b, rfl⟩ := Int.eq_ofNat_of_zero_le (by omega : 0 ≤ n)
    have t := ydayOfDate_month_table leap ⟨a, by omega⟩ ⟨b, by omega⟩
      (by show 1 ≤ a; omega) (by show a < b; omega)
    have t' : ydayOfDate leap (a : Int) (daysIn leap (a : Int)) < ydayOfDate leap (b : Int) 1 := t
    simp only [ydayOfDate] at t' ⊢
    omega
  · simp only [ydayOfDate]
    omega

/-- A later year, or a later month and day of the same year, is a later
day. -/
theorem Time.days_lt_of_date (t u : Time)
    (h : t.Year < u.Year ∨ (t.Year = u.Year ∧
      (t.Month < u.Month ∨ (t.Month = u.Month ∧ t.Day < u.Day)))) :
    t.days < u.days := by
  obtain ⟨tm, td, te⟩ := Time.civil t
  obtain ⟨um, ud, ue⟩ := Time.civil u
  rcases h with h | ⟨hy, h⟩
  · have h1 := (Time.days_year t).2
    have h2 := (Time.days_year u).1
    have h3 : daysSinceEpoch (t.Year + 1) ≤ daysSinceEpoch u.Year := by
      simp only [daysSinceEpoch]
      omega
    omega
  · rw [hy] at td te
    have := ydayOfDate_lt (isLeap u.Year) t.Month t.Day u.Month u.Day tm um td ud h
    omega

end GoTime

namespace GoTime

open storage

/-- The texts of two times of the same zone with years of four digits compare
field by field, the year first. -/
theorem formatTimestamp_compare (t u : Time) (hz : t.zone = u.zone)
    (ht : 0 ≤ t.Year ∧ t.Year ≤ 9999) (hu : 0 ≤ u.Year ∧ u.Year ≤ 9999) :
    textCompare t.formatTimestamp.data u.formatTimestamp.data =
      if t.Year < u.Year then .lt else if u.Year < t.Year then .gt
      else if t.Month < u.Month then .lt else if u.Month < t.Month then .gt
      else if t.Day < u.Day then .lt else if u.Day < t.Day then .gt
      else if t.Hour < u.Hour then .lt else if u.Hour < t.Hour then .gt
      else if t.Minute < u.Minute then .lt else if u.Minute < t.Minute then .gt
      else if t.Second < u.Second then .lt else if u.Second < t.Second then .gt
      else if t.Nanosecond < u.Nanosecond then .lt
      else if u.Nanosecond < t.Nanosecond then .gt else .eq := by
  obtain ⟨tm, td, _⟩ := Time.civil t
  obtain ⟨um, ud, _⟩ := Time.civil u
  have td31 := (daysIn_le (isLeap t.Year) t.Month).1
  have ud31 := (daysIn_le (isLeap u.Year) u.Month).1
  obtain ⟨th, tmi, ts, tn, _⟩ := Time.clock_fields t
  obtain ⟨uh, umi, us, un, _⟩ := Time.clock_fields u
  obtain ⟨e, z', hzd, he⟩ := formatZone_head u.zone
  have hY := textCompare_appendInt 4 (by decide) t.Year u.Year
    ⟨ht.1, by norm_num; omega⟩ ⟨hu.1, by norm_num; omega⟩
  have hM := textCompare_appendInt 2 (by decide) t.Month u.Month
    ⟨by omega, by norm_num; omega⟩ ⟨by omega, by norm_num; omega⟩
  have hD := textCompare_appendInt 2 (by decide) t.Day u.Day
    ⟨by omega, by norm_num; omega⟩ ⟨by omega, by norm_num; omega⟩
  have hH := textCompare_appendInt 2 (by decide) t.Hour u.Hour
    ⟨by omega, by norm_num; omega⟩ ⟨by omega, by norm_num; omega⟩
  have hMi := textCompare_appendInt 2 (by decide) t.Minute u.Minute
    ⟨by omega, by norm_num; omega⟩ ⟨by omega, by norm_num; omega⟩
  have hS := textCompare_appendInt 2 (by decide) t.Second u.Second
    ⟨by omega, by norm_num; omega⟩ ⟨by omega, by norm_num; omega⟩
  have hN := textCompare_appendNano t.Nanosecond u.Nanosecond tn un
    (formatZone u.zone).data e z' hzd he
  have s1 : ("-" : String).data = [Char.ofNat 45] := rfl
  have s2 : (" " : String).data = [Char.ofNat 32] := rfl
  have s3 : (":" : String).data = [Char.ofNat 58] := rfl
  simp only [Time.formatTimestamp, hz, String.data_append, List.append_assoc, s1, s2, s3,
    List.singleton_append, List.cons_append, List.nil_append, hY, hM, hD, hH, hMi, hS, hN, textCompare_cons]

/-- For two times of the same zone with years of four digits, the order of
the texts is the order of the instants. -/
theorem textLE_formatTimestamp (t u : Time) (hz : t.zone = u.zone)
    (ht : 0 ≤ t.Year ∧ t.Year ≤ 9999) (hu : 0 ≤ u.Year ∧ u.Year ≤ 9999) :
    textLE t.formatTimestamp u.formatTimestamp = true ↔ t.abs ≤ u.abs := by
  obtain ⟨th, tmi, ts, tn, ta⟩ := Time.clock_fields t
  obtain ⟨uh, umi, us, un, ua⟩ := Time.clock_fields u
  have hlt := Time.days_lt_of_date t u
  have hgt := Time.days_lt_of_date u t
  have heq : t.Year = u.Year → t.Month = u.Month → t.Day = u.Day → t.days = u.days := by
    intro h1 h2 h3
    have e1 := (Time.civil t).2.2
    have e2 := (Time.civil u).2.2
    rw [h1, h2, h3] at e1
    omega
  simp only [textLE, formatTimestamp_compare t u hz ht hu]
  generalize t.days = dt at *
  generalize u.days = du at *
  by_cases y1 : t.Year < u.Year
  · have := hlt (Or.inl y1)
    simp only [y1, if_true]
    constructor
    · intro _; omega
    · intro _; rfl
  by_cases y2 : u.Year < t.Year
  · have := hgt (Or.inl y2)
    simp only [y1, y2, if_true, if_false]
    constructor
    · intro h; exact absurd h (by decide)
    · intro _; omega
  have ye : t.Year = u.Year := by omega
  by_cases m1 : t.Month < u.Month
  · have := hlt (Or.inr ⟨ye, Or.inl m1⟩)
    simp only [y1, y2, m1, if_true, if_false]
    constructor
    · intro _; omega
    · intro _; rfl
  by_cases m2 : u.Month < t.Month
  · have := hgt (Or.inr ⟨ye.symm, Or.inl m2⟩)
    simp only [y1, y2, m1, m2, if_true, if_false]
    constructor
    · intro h; exact absurd h (by decide)
    · intro _; omega
  have me : t.Month = u.Month := by omega
  by_cases d1 : t.Day < u.Day
  · have := hlt (Or.inr ⟨ye, Or.inr ⟨me, d1⟩⟩)
    simp only [y1, y2, m1, m2, d1, if_true, if_false]
    constructor
    · intro _; omega
    · intro _; rfl
  by_cases d2 : u.Day < t.Day
  · have := hgt (Or.inr ⟨ye.symm, Or.inr ⟨me.symm, d2⟩⟩)
    simp only [y1, y2, m1, m2, d1, d2, if_true, if_false]
    constructor
    · intro h; exact absurd h (by decide)
    · intro _; omega
  have de : dt = du := heq ye me (by omega)
  simp only [y1, y2, m1, m2, d1, d2, if_false]
  clear hlt hgt heq
  split_ifs <;> constructor <;> intro h <;> first | rfl | omega | exact absurd h (by decide)

end GoTime

namespace GoTime

theorem digitVal_range (c : Char) (h : isDigit c = true) : 0 ≤ digitVal c ∧ digitVal c ≤ 9 := by
  simp only [isDigit, decide_eq_true_eq] at h
  simp only [digitVal]
  omega

/-- Every date that `parseDate` returns is a midnight in UTC of a year from
0 to 9999. -/
theorem parseDate_utc (value : String) (t : Time) (h : parseDate value = some t) :
    t.zone = 0 ∧ 0 ≤ t.Year ∧ t.Year ≤ 9999 ∧
    t.Hour = 0 ∧ t.Minute = 0 ∧ t.Second = 0 ∧ t.Nanosecond = 0 := by
  simp only [parseDate] at h
  split at h
  · cases h
  · split at h
    · cases h
    · split at h
      · cases h
      · split at h
        · cases h
        · split at h
          · split at h
            · cases h
            · split at h
              · cases h
              · split at h
                · cases h
                · split at h
                  · cases h
                  · split at h
                    · cases h
                    · rename_i day _ _ _ _ _ _ month _ _ y0 y1 y2 y3 _ _ _ hdig _ hmonth hday
                      simp only [Option.some.injEq] at h
                      have hdig' : ((isDigit y0 = true ∧ isDigit y1 = true) ∧ isDigit y2 = true)
                          ∧ isDigit y3 = true := by simpa using hdig
                      obtain ⟨⟨⟨d0, d1⟩, d2⟩, d3⟩ := hdig'
                      have r0 := digitVal_range y0 d0
                      have r1 := digitVal_range y1 d1
                      have r2 := digitVal_range y2 d2
                      have r3 := digitVal_range y3 d3
                      obtain ⟨c1, _, _, c4, c5, c6, c7, c8⟩ := Date_civil
                        (digitVal y0 * 1000 + digitVal y1 * 100 + digitVal y2 * 10 + digitVal y3)
                        month day 0 0 0 (by omega) (by omega) (by omega) (by omega)
                      rw [h] at c1 c4 c5 c6 c7 c8
                      refine ⟨c8, ?_, ?_, c4, c5, c6, c7⟩ <;> omega
          · cases h

end GoTime

namespace storage

/-- Rows stored with different offsets are ordered by their texts, not by
their instants: the record stored as 02:00 in a zone three hours east of UTC
comes after the record stored as midnight UTC of the same day, although its
instant is the earlier one. -/
theorem GetBirthdays_zoned_rows :
    (Date 1990 3 15 2 0 0 0 10800).formatTimestamp = "1990-03-15 02:00:00+03:00" ∧
    (Date 1990 3 15 0 0 0 0 0).formatTimestamp = "1990-03-15 00:00:00+00:00" ∧
    (Date 1990 3 15 2 0 0 0 10800).abs < (Date 1990 3 15 0 0 0 0 0).abs ∧
    zonedDB.GetBirthdays 7 =
      .ok [{ ID := 2, Name := "Bob Ray", Birthday := Date 1990 3 15 0 0 0 0 0, GroupID := 7 },
           { ID := 1, Name := "Ann Lee", Birthday := Date 1990 3 15 2 0 0 0 10800,
             GroupID := 7 }] := by
  decide

end storage

/-- C10 fails as stated: on 1 January the record born on 5 January comes
first in month-day order from today, but `GetBirthdays` puts the record born
on 25 December 1990 before it, the older date of birth. -/
theorem GetBirthdays_not_by_month_day :
    winterDB.GetBirthdays 7 =
      .ok [{ ID := 2, Name := "Bob Ray", Birthday := Date 1990 12 25 0 0 0 0 0, GroupID := 7 },
           { ID := 1, Name := "Ann Lee", Birthday := Date 1991 1 5 0 0 0 0 0, GroupID := 7 }] ∧
    ¬ List.Sorted
        (fun a b : Birthday =>
          monthDayRank (strftimeMD (Date 2024 1 1 12 0 0 0 0)) (strftimeMD a.Birthday)
            ≤ monthDayRank (strftimeMD (Date 2024 1 1 12 0 0 0 0)) (strftimeMD b.Birthday))
        [{ ID := 2, Name := "Bob Ray", Birthday := Date 1990 12 25 0 0 0 0 0, GroupID := 7 },
         { ID := 1, Name := "Ann Lee", Birthday := Date 1991 1 5 0 0 0 0 0, GroupID := 7 }] := by
  decide

/-- C10, amended: for every group, `GetBirthdays` returns all of the records
of the group, each once, ordered by the text stored for the date of birth,
which starts with the year; today's date plays no part.  When the dates of
the group are stored with one offset and with years from 0 to 9999, as are
the dates read by `parseDate`, which the add dialogue stores (UTC), the order
is that of the dates of birth, the oldest first, the year included. -/
theorem GetBirthdays_sorted_by_date (s : SQLite) (groupID : Int) :
    ∃ l : List Birthday, s.GetBirthdays groupID = .ok l ∧
      l.Perm (s.birthdays.filter (fun b => decide (b.GroupID = groupID))) ∧
      l.Sorted (fun a b =>
        textLE a.Birthday.formatTimestamp b.Birthday.formatTimestamp = true) ∧
      (∀ offset : Int,
        (∀ b ∈ s.birthdays, b.GroupID = groupID →
          b.Birthday.zone = offset ∧ 0 ≤ b.Birthday.Year ∧ b.Birthday.Year ≤ 9999) →
        l.Sorted (fun a b => a.Birthday.abs ≤ b.Birthday.abs)) ∧
      ((∀ b ∈ s.birthdays, b.GroupID = groupID →
          ∃ text, parseDate text = some b.Birthday) →
        l.Sorted (fun a b => a.Birthday.abs ≤ b.Birthday.abs)) := by
  haveI : IsTotal Birthday (fun a b =>
      textLE a.Birthday.formatTimestamp b.Birthday.formatTimestamp = true) :=
    ⟨fun a b => by
      simp only [storage.textLE_iff]
      exact storage.textCompare_total _ _⟩
  haveI : IsTrans Birthday (fun a b =>
      textLE a.Birthday.formatTimestamp b.Birthday.formatTimestamp = true) :=
    ⟨fun a b c => by
      simp only [storage.textLE_iff]
      exact storage.textCompare_trans _ _ _⟩
  have hsorted := List.sorted_insertionSort (fun a b : Birthday =>
      textLE a.Birthday.formatTimestamp b.Birthday.formatTimestamp = true)
    (s.birthdays.filter (fun b => decide (b.GroupID = groupID)))
  have hperm := List.perm_insertionSort (fun a b : Birthday =>
      textLE a.Birthday.formatTimestamp b.Birthday.formatTimestamp = true)
    (s.birthdays.filter (fun b => decide (b.GroupID = groupID)))
  have hinst : ∀ offset : Int,
      (∀ b ∈ s.birthdays, b.GroupID = groupID →
        b.Birthday.zone = offset ∧ 0 ≤ b.Birthday.Year ∧ b.Birthday.Year ≤ 9999) →
      ((s.birthdays.filter (fun b => decide (b.GroupID = groupID))).insertionSort
        (fun a b => textLE a.Birthday.formatTimestamp b.Birthday.formatTimestamp = true)).Sorted
        (fun a b => a.Birthday.abs ≤ b.Birthday.abs) := by
    intro offset h
    have hrow : ∀ a ∈ (s.birthdays.filter (fun b => decide (b.GroupID = groupID))).insertionSort
        (fun a b => textLE a.Birthday.formatTimestamp b.Birthday.formatTimestamp = true),
        a.Birthday.zone = offset ∧ 0 ≤ a.Birthday.Year ∧ a.Birthday.Year ≤ 9999 := by
      intro a ha
      have ha' := List.mem_filter.mp (hperm.mem_iff.mp ha)
      exact h a ha'.1 (by simpa using ha'.2)
    refine List.Pairwise.imp_of_mem ?_ hsorted
    intro a b ha hb hab
    obtain ⟨za, ya⟩ := hrow a ha
    obtain ⟨zb, yb⟩ := hrow b hb
    exact (textLE_formatTimestamp a.Birthday b.Birthday (by rw [za, zb]) ya yb).mp hab
  refine ⟨_, rfl, hperm, hsorted, hinst, fun h => hinst 0 ?_⟩
  intro b hb hg
  obtain ⟨text, ht⟩ := h b hb hg
  obtain ⟨z, y0, y1, _⟩ := parseDate_utc text b.Birthday ht
  exact ⟨z, y0, y1⟩

theorem GetBirthdays_sorted_by_date_witness :
    (∀ b ∈ winterDB.birthdays, b.GroupID = 7 →
      b.Birthday.zone = 0 ∧ 0 ≤ b.Birthday.Year ∧ b.Birthday.Year ≤ 9999) ∧
    ∃ l : List Birthday, winterDB.GetBirthdays 7 = .ok l ∧
      l.Perm (winterDB.birthdays.filter (fun b => decide (b.GroupID = 7))) ∧
      l.Sorted (fun a b => a.Birthday.abs ≤ b.Birthday.abs) :=
  ⟨by decide,
    (GetBirthdays_sorted_by_date winterDB 7).imp
      (fun _ h => ⟨h.1, h.2.1, h.2.2.2.1 0 (by decide)⟩)⟩

/-! ## Float arithmetic of the day count -/

namespace GoTime

theorem roundHalfEven_floor (q : ℚ) : ⌊q⌋ ≤ roundHalfEven q ∧ roundHalfEven q ≤ ⌊q⌋ + 1 := by
  simp only [roundHalfEven]
  split_ifs <;> omega

theorem roundHalfEven_mono {q r : ℚ} (h : q ≤ r) : roundHalfEven q ≤ roundHalfEven r := by
  have hf : ⌊q⌋ ≤ ⌊r⌋ := Int.floor_le_floor h
  rcases lt_or_eq_of_le hf with hlt | heq
  · have h1 := (roundHalfEven_floor q).2
    have h2 := (roundHalfEven_floor r).1
    omega
  · simp only [roundHalfEven, ← heq]
    split_ifs <;> first | omega | (exfalso; linarith)

theorem roundHalfEven_intCast (n : Int) : roundHalfEven (n : ℚ) = n := by
  simp [roundHalfEven]

theorem float64_zero : float64 0 = 0 := by
  simp [float64]

/-- A positive number lies in the binade `[P, 2 P)` of a power of two `P`, and
is rounded on the grid of step `P / 2 ^ 52`. -/
theorem float64_pos (x : ℚ) (hx : 0 < x) :
    0 < (2 : ℚ) ^ Int.log 2 x ∧ (2 : ℚ) ^ Int.log 2 x ≤ x ∧ x < 2 * (2 : ℚ) ^ Int.log 2 x ∧
    float64 x = (roundHalfEven (x * 4503599627370496 / (2 : ℚ) ^ Int.log 2 x) : ℚ)
      * ((2 : ℚ) ^ Int.log 2 x / 4503599627370496) := by
  have h2 : (2 : ℚ) ≠ 0 := by norm_num
  have hP : 0 < (2 : ℚ) ^ Int.log 2 x := zpow_pos (by norm_num) _
  have h1 : (2 : ℚ) ^ Int.log 2 x ≤ x := by
    have := Int.zpow_log_le_self (b := 2) (by norm_num) hx
    simpa using this
  have h3 : x < 2 * (2 : ℚ) ^ Int.log 2 x := by
    have := Int.lt_zpow_succ_log_self (b := 2) (by norm_num) x
    rw [zpow_add_one₀ (by norm_num)] at this
    simp only [Nat.cast_ofNat] at this
    linarith
  refine ⟨hP, h1, h3, ?_⟩
  have hu : (2 : ℚ) ^ (Int.log 2 x - 52) = (2 : ℚ) ^ Int.log 2 x / 4503599627370496 := by
    rw [zpow_sub₀ h2]
    norm_num
  simp only [float64, ne_of_gt hx, if_false, abs_of_pos hx, hu]
  congr 2
  field_simp

/-- The rounded value stays in the closed binade. -/
theorem float64_binade (x : ℚ) (hx : 0 < x) :
    (2 : ℚ) ^ Int.log 2 x ≤ float64 x ∧ float64 x ≤ 2 * (2 : ℚ) ^ Int.log 2 x := by
  obtain ⟨hP, h1, h3, he⟩ := float64_pos x hx
  generalize (2 : ℚ) ^ Int.log 2 x = P at *
  have hlo : ((4503599627370496 : Int) : ℚ) ≤ x * 4503599627370496 / P := by
    rw [le_div_iff₀ hP]; push_cast; nlinarith
  have hhi : x * 4503599627370496 / P ≤ ((9007199254740992 : Int) : ℚ) := by
    rw [div_le_iff₀ hP]; push_cast; nlinarith
  have r1 := roundHalfEven_mono hlo
  have r2 := roundHalfEven_mono hhi
  rw [roundHalfEven_intCast] at r1 r2
  have r1' : (4503599627370496 : ℚ) ≤ (roundHalfEven (x * 4503599627370496 / P) : ℚ) := by
    exact_mod_cast r1
  have r2' : (roundHalfEven (x * 4503599627370496 / P) : ℚ) ≤ 9007199254740992 := by
    exact_mod_cast r2
  rw [he]
  have hq : 0 < P / 4503599627370496 := by positivity
  constructor
  · calc P = 4503599627370496 * (P / 4503599627370496) := by field_simp
      _ ≤ _ := mul_le_mul_of_nonneg_right r1' hq.le
  · calc _ ≤ 9007199254740992 * (P / 4503599627370496) := mul_le_mul_of_nonneg_right r2' hq.le
      _ = 2 * P := by field_simp; ring

/-- Rounding to `float64` keeps the order of numbers that are not
negative. -/
theorem float64_mono {x y : ℚ} (hx : 0 ≤ x) (h : x ≤ y) : float64 x ≤ float64 y := by
  rcases eq_or_lt_of_le hx with h0 | hpos
  · rw [← h0, float64_zero]
    rcases eq_or_lt_of_le (le_trans hx h) with h1 | h1
    · rw [← h1, float64_zero]
    · exact le_trans (zpow_pos (by norm_num) _).le (float64_binade y h1).1
  · have hy : 0 < y := lt_of_lt_of_le hpos h
    have hlog : Int.log 2 x ≤ Int.log 2 y := Int.log_mono_right hpos h
    rcases lt_or_eq_of_le hlog with hlt | heq
    · have a1 := (float64_binade x hpos).2
      have a2 := (float64_binade y hy).1
      have a3 : 2 * (2 : ℚ) ^ Int.log 2 x ≤ (2 : ℚ) ^ Int.log 2 y := by
        have : (2 : ℚ) ^ (Int.log 2 x + 1) ≤ (2 : ℚ) ^ Int.log 2 y :=
          zpow_le_zpow_right₀ (by norm_num) (by omega)
        rw [zpow_add_one₀ (by norm_num)] at this
        linarith
      linarith
    · obtain ⟨hP, _, _, ex⟩ := float64_pos x hpos
      obtain ⟨_, _, _, ey⟩ := float64_pos y hy
      rw [ex, ey, heq]
      rw [heq] at hP
      have hq : 0 < (2 : ℚ) ^ Int.log 2 y / 4503599627370496 := by positivity
      apply mul_le_mul_of_nonneg_right _ hq.le
      have : x * 4503599627370496 / (2 : ℚ) ^ Int.log 2 y
          ≤ y * 4503599627370496 / (2 : ℚ) ^ Int.log 2 y := by
        apply div_le_div_of_nonneg_right _ hP.le
        nlinarith
      exact_mod_cast roundHalfEven_mono this


/-- A number `m * 2 ^ j` with `0 < m < 2 ^ 53` is a `float64`: rounding leaves
it unchanged. -/
theorem float64_dyadic (m j : Int) (h0 : 0 < m) (h1 : m < 9007199254740992) :
    float64 ((m : ℚ) * 2 ^ j) = (m : ℚ) * 2 ^ j := by
  have h2 : (2 : ℚ) ≠ 0 := by norm_num
  have hj : 0 < (2 : ℚ) ^ j := zpow_pos (by norm_num) _
  have hx : 0 < (m : ℚ) * 2 ^ j := mul_pos (by exact_mod_cast h0) hj
  have hm : (m : ℚ) ≤ 9007199254740991 := by exact_mod_cast (by omega : m ≤ 9007199254740991)
  -- the exponent of the grid is not above `j`
  have he : Int.log 2 ((m : ℚ) * 2 ^ j) - 52 ≤ j := by
    by_contra hcon
    have hge : j + 53 ≤ Int.log 2 ((m : ℚ) * 2 ^ j) := by omega
    have h3 : (2 : ℚ) ^ (j + 53) ≤ (m : ℚ) * 2 ^ j := by
      have := (Int.zpow_le_iff_le_log (b := 2) (by norm_num) hx).mpr hge
      simpa using this
    rw [zpow_add₀ h2] at h3
    have h53 : (2 : ℚ) ^ (53 : ℤ) = 9007199254740992 := by norm_num
    rw [h53] at h3
    nlinarith
  obtain ⟨n, hn⟩ : ∃ n : ℕ, j = Int.log 2 ((m : ℚ) * 2 ^ j) - 52 + n :=
    ⟨(j - (Int.log 2 ((m : ℚ) * 2 ^ j) - 52)).toNat, by omega⟩
  have hu : 0 < (2 : ℚ) ^ (Int.log 2 ((m : ℚ) * 2 ^ j) - 52) := zpow_pos (by norm_num) _
  have hsplit : (2 : ℚ) ^ j = 2 ^ (Int.log 2 ((m : ℚ) * 2 ^ j) - 52) * 2 ^ n := by
    conv_lhs => rw [hn]
    rw [zpow_add₀ h2, zpow_natCast]
  have hq : (m : ℚ) * 2 ^ j / 2 ^ (Int.log 2 ((m : ℚ) * 2 ^ j) - 52)
      = ((m * 2 ^ n : Int) : ℚ) := by
    rw [div_eq_iff (ne_of_gt hu)]
    push_cast
    conv_lhs => rw [hsplit]
    ring
  simp only [float64, ne_of_gt hx, if_false, abs_of_pos hx]
  rw [hq, roundHalfEven_intCast]
  push_cast
  conv_rhs => rw [hsplit]
  ring

/-- Whole numbers from 0 up to `2 ^ 53` are `float64` values. -/
theorem float64_intCast (n : Int) (h0 : 0 ≤ n) (h1 : n < 9007199254740992) :
    float64 (n : ℚ) = n := by
  rcases eq_or_lt_of_le h0 with h | h
  · rw [← h]; simp [float64_zero]
  · have := float64_dyadic n 0 h h1
    simpa using this

/-- Whole numbers less an eighth are `float64` values. -/
theorem float64_sub_eighth (k : Int) (h0 : 1 ≤ k) (h1 : k < 1000000000000000) :
    float64 ((k : ℚ) - 1 / 8) = (k : ℚ) - 1 / 8 := by
  have := float64_dyadic (8 * k - 1) (-3) (by omega) (by omega)
  have e : (((8 * k - 1 : Int) : ℚ)) * 2 ^ (-3 : ℤ) = (k : ℚ) - 1 / 8 := by
    push_cast
    rw [zpow_neg]
    norm_num
    ring
  rw [e] at this
  exact this

/-- The value of `Duration.Hours` lies between the whole hours of the duration
and one hour more. -/
theorem Hours_bounds (d : Int) (h0 : 0 ≤ d) (h1 : d ≤ maxDuration) :
    ((d / 3600000000000 : Int) : ℚ) ≤ Duration.Hours d ∧
    Duration.Hours d ≤ ((d / 3600000000000 : Int) : ℚ) + 1 := by
  have ediv : d.tdiv Hour = d / 3600000000000 := Int.tdiv_eq_ediv h0 (by decide)
  have emod : d.tmod Hour = d % 3600000000000 := Int.tmod_eq_emod h0 (by decide)
  simp only [maxDuration] at h1
  have hh0 : 0 ≤ d / 3600000000000 := by omega
  have hh1 : d / 3600000000000 < 9007199254740992 := by omega
  have hn0 : 0 ≤ d % 3600000000000 := by omega
  have hn1 : d % 3600000000000 < 3600000000000 := by omega
  have hnq0 : (0 : ℚ) ≤ ((d % 3600000000000 : Int) : ℚ) := by exact_mod_cast hn0
  have hnq1 : ((d % 3600000000000 : Int) : ℚ) ≤ 3600000000000 := by exact_mod_cast hn1.le
  have hhq0 : (0 : ℚ) ≤ ((d / 3600000000000 : Int) : ℚ) := by exact_mod_cast hh0
  simp only [Duration.Hours, ediv, emod]
  rw [float64_intCast _ hh0 hh1, float64_intCast _ hn0 (by omega)]
  -- the fraction of an hour is rounded into `[0, 1]`
  have hf0 : 0 ≤ float64 (((d % 3600000000000 : Int) : ℚ) / 3600000000000) := by
    have := float64_mono (le_refl (0 : ℚ))
      (by positivity : (0 : ℚ) ≤ ((d % 3600000000000 : Int) : ℚ) / 3600000000000)
    rwa [float64_zero] at this
  have hf1 : float64 (((d % 3600000000000 : Int) : ℚ) / 3600000000000) ≤ 1 := by
    have h := float64_mono
      (by positivity : (0 : ℚ) ≤ ((d % 3600000000000 : Int) : ℚ) / 3600000000000)
      (by
        have : ((d % 3600000000000 : Int) : ℚ) / 3600000000000 ≤ 1 := by
          rw [div_le_one (by norm_num)]; exact hnq1
        exact_mod_cast this :
        ((d % 3600000000000 : Int) : ℚ) / 3600000000000 ≤ ((1 : Int) : ℚ))
    rw [float64_intCast 1 (by omega) (by omega)] at h
    exact_mod_cast h
  constructor
  · have := float64_mono hhq0 (by linarith :
      ((d / 3600000000000 : Int) : ℚ)
        ≤ ((d / 3600000000000 : Int) : ℚ)
          + float64 (((d % 3600000000000 : Int) : ℚ) / 3600000000000))
    rwa [float64_intCast _ hh0 hh1] at this
  · have := float64_mono (by linarith :
      (0 : ℚ) ≤ ((d / 3600000000000 : Int) : ℚ)
          + float64 (((d % 3600000000000 : Int) : ℚ) / 3600000000000))
      (by push_cast; linarith :
        ((d / 3600000000000 : Int) : ℚ)
          + float64 (((d % 3600000000000 : Int) : ℚ) / 3600000000000)
          ≤ ((d / 3600000000000 + 1 : Int) : ℚ))
    rw [float64_intCast _ (by omega) (by omega)] at this
    push_cast at this
    exact this

/-- Lower bound of the day count `int(d.Hours() / 24)`: `k` full days give at
least `k`. -/
theorem days_ge (d k : Int) (h0 : 0 ≤ d) (h1 : d ≤ maxDuration) (hk : 0 ≤ k)
    (h : k * 86400000000000 ≤ d) :
    k ≤ truncInt (float64 (Duration.Hours d / 24)) := by
  obtain ⟨lo, _⟩ := Hours_bounds d h0 h1
  simp only [maxDuration] at h1
  have hh : 24 * k ≤ d / 3600000000000 := by omega
  have hq : ((k : Int) : ℚ) ≤ Duration.Hours d / 24 := by
    rw [le_div_iff₀ (by norm_num)]
    have : ((24 * k : Int) : ℚ) ≤ ((d / 3600000000000 : Int) : ℚ) := by exact_mod_cast hh
    push_cast at this
    linarith
  have hm := float64_mono (by exact_mod_cast hk) hq
  rw [float64_intCast k hk (by omega)] at hm
  have hpos : (0 : ℚ) ≤ float64 (Duration.Hours d / 24) :=
    le_trans (by exact_mod_cast hk) hm
  simp only [truncInt, hpos, if_true]
  exact Int.le_floor.mpr hm

/-- Upper bound of the day count: a duration at least four hours short of `k`
days gives less than `k`. -/
theorem days_lt (d k : Int) (h0 : 0 ≤ d) (h1 : d ≤ maxDuration)
    (hk2 : k < 1000000000000000) (h : d + 4 * 3600000000000 ≤ k * 86400000000000) :
    truncInt (float64 (Duration.Hours d / 24)) < k := by
  obtain ⟨lo, hi⟩ := Hours_bounds d h0 h1
  simp only [maxDuration] at h1
  have hk1 : 1 ≤ k := by omega
  have hh : d / 3600000000000 + 4 ≤ 24 * k := by omega
  have hd0 : (0 : ℚ) ≤ ((d / 3600000000000 : Int) : ℚ) := by
    exact_mod_cast (by omega : 0 ≤ d / 3600000000000)
  have hq : Duration.Hours d / 24 ≤ (k : ℚ) - 1 / 8 := by
    rw [div_le_iff₀ (by norm_num)]
    have : ((d / 3600000000000 + 4 : Int) : ℚ) ≤ ((24 * k : Int) : ℚ) := by exact_mod_cast hh
    push_cast at this
    linarith
  have hnn : (0 : ℚ) ≤ Duration.Hours d / 24 := by
    apply div_nonneg _ (by norm_num)
    linarith
  have hm := float64_mono hnn hq
  rw [float64_sub_eighth k hk1 hk2] at hm
  have hpos : (0 : ℚ) ≤ float64 (Duration.Hours d / 24) := by
    have := float64_mono (le_refl (0 : ℚ)) hnn
    rwa [float64_zero] at this
  simp only [truncInt, hpos, if_true]
  rw [Int.floor_lt]
  linarith

end GoTime

/-! ## Notify time, validation and the cases of the next birthday -/

namespace storage

theorem lookup_none_of_absent (l : List (Int × String)) (g : Int) (h : ∀ p ∈ l, p.1 ≠ g) :
    l.lookup g = none := by
  induction l with
  | nil => rfl
  | cons p rest ih =>
    obtain ⟨k, v⟩ := p
    have hk : k ≠ g := h (k, v) (List.mem_cons_self _ _)
    have hk' : (g == k) = false := by
      rw [beq_eq_false_iff_ne]; exact fun e => hk e.symm
    simp only [List.lookup, hk']
    exact ih (fun q hq => h q (List.mem_cons_of_mem _ hq))

theorem default_notify_clock (Local : Int) :
    (Date 0 0 0 9 0 0 0 Local).Hour = 9 ∧ (Date 0 0 0 9 0 0 0 Local).Minute = 0 := by
  have hw : (Date 0 0 0 9 0 0 0 Local).wallSec = -34354800 := by
    simp only [Time.wallSec, Date, GoTime.norm]
    norm_num [daysSinceEpoch, daysBefore, isLeap]
  simp only [Time.Hour, Time.Minute, hw]
  decide

end storage

/-- C11: for every group without a stored notify setting, `GetNotifyTime`
succeeds and returns a time of day with hour 9 and minute 0. -/
theorem GetNotifyTime_default (s : SQLite) (Local groupID : Int)
    (h : ∀ p ∈ s.settings, p.1 ≠ groupID) :
    ∃ t : Time, s.GetNotifyTime Local groupID = .ok t ∧ t.Hour = 9 ∧ t.Minute = 0 := by
  refine ⟨Date 0 0 0 9 0 0 0 Local, ?_, storage.default_notify_clock Local⟩
  simp only [SQLite.GetNotifyTime, storage.lookup_none_of_absent _ _ h]

theorem GetNotifyTime_default_witness :
    (∀ p ∈ twoGroupDB.settings, p.1 ≠ 7) ∧
    ∃ t : Time, twoGroupDB.GetNotifyTime 10800 7 = .ok t ∧ t.Hour = 9 ∧ t.Minute = 0 :=
  ⟨by decide, GetNotifyTime_default twoGroupDB 10800 7 (by decide)⟩

/-- C12 fails as stated: a record born 150 years less two weeks before now
meets the three conditions, and `Validate` rejects it as too old, its bound
being 150 times 365 days. -/
theorem Validate_rejects_within_150_years :
    validBySpec oldRecord sampleNow ∧
    oldRecord.Validate sampleNow = some "дата рождения слишком старая" := by
  refine ⟨⟨by decide, by decide, by decide⟩, by decide⟩

/-- C12, amended: `Validate` returns no error exactly when the name is not
empty, the date of birth is not the zero time, is not after now, and lies at
most 150 times 365 days of 24 hours before now; in every other case it
returns an error. -/
theorem Validate_iff (b : Birthday) (now : Time) :
    b.Validate now = none ↔
      (b.Name ≠ "" ∧ b.Birthday.abs ≠ 0 ∧ b.Birthday.abs ≤ now.abs ∧
        now.abs - b.Birthday.abs ≤ 150 * 365 * 24 * Hour) := by
  simp only [Birthday.Validate, Time.IsZero, Time.After, Time.Sub, maxDuration, minDuration,
    Hour, decide_eq_true_eq]
  split_ifs <;> simp_all <;> omega

/-- C17: with `c` midnight of the month and day of the birth date in the year
of the reference instant, `getNextBirthday` is `c` when `c` is not before the
instant, and otherwise `c.AddDate(1, 0, 0)`, which is midnight of the month
and day of `c` in the next year; the year of the result is the year of the
instant in the first case and the next year in the second. -/
theorem getNextBirthday_cases (Local : Int) (B T : Time) :
    scheduler.getNextBirthday Local B T =
      (if (Date T.Year B.Month B.Day 0 0 0 0 Local).Before T
       then (Date T.Year B.Month B.Day 0 0 0 0 Local).AddDate 1 0 0
       else Date T.Year B.Month B.Day 0 0 0 0 Local) ∧
    (Date T.Year B.Month B.Day 0 0 0 0 Local).AddDate 1 0 0 =
      Date (T.Year + 1) (Date T.Year B.Month B.Day 0 0 0 0 Local).Month
        (Date T.Year B.Month B.Day 0 0 0 0 Local).Day 0 0 0 0 Local ∧
    (scheduler.getNextBirthday Local B T).Year =
      (if (Date T.Year B.Month B.Day 0 0 0 0 Local).Before T then T.Year + 1 else T.Year) := by
  obtain ⟨hm, hd, _⟩ := Time.civil B
  have hd' : 1 ≤ B.Day ∧ B.Day ≤ daysIn true B.Month :=
    ⟨hd.1, le_trans hd.2 (daysIn_le _ _).2.1⟩
  obtain ⟨e1, e2, e3, e4, e5, e6, e7, e8⟩ := Date_midnight T.Year B.Month B.Day Local hm hd'
  obtain ⟨k0, k1⟩ := ydayOfDate_inside (isLeap T.Year) B.Month B.Day hm hd'
  obtain ⟨a1, a2, a3, a4, _⟩ := monthDay_spec (isLeap T.Year) _ k0 k1
  have hadd : (Date T.Year B.Month B.Day 0 0 0 0 Local).AddDate 1 0 0 =
      Date (T.Year + 1) (Date T.Year B.Month B.Day 0 0 0 0 Local).Month
        (Date T.Year B.Month B.Day 0 0 0 0 Local).Day 0 0 0 0 Local := by
    simp only [Time.AddDate, e1, e4, e5, e6, e7, e8, add_zero]
  refine ⟨rfl, hadd, ?_⟩
  simp only [scheduler.getNextBirthday]
  split
  · rw [hadd, e2, e3]
    exact (Date_midnight (T.Year + 1) _ _ Local ⟨a1, a2⟩
      ⟨a3, le_trans a4 (daysIn_le _ _).2.1⟩).1
  · exact e1

/-! ## The handler -/

/-- C13: for every database and a fixed current instant, the lines that
`handleShowBirthdays` writes follow a list that is a permutation of the
stored records of the group and in which the next birthday, computed by
`getNextBirthday` at that instant, never decreases from one record to the
next. -/
theorem handleShowBirthdays_sorted (Local : Int) (now : Time) (s : SQLite) (chatID : Int) :
    ∃ stored shown : List Birthday,
      s.GetBirthdays chatID = .ok stored ∧
      shown.Perm stored ∧
      shown.Sorted (fun a b =>
        (bot.getNextBirthday Local a.Birthday now).abs
          ≤ (bot.getNextBirthday Local b.Birthday now).abs) ∧
      bot.handleShowBirthdays Local now s chatID =
        (if stored.length = 0 then .ok "В этой группе пока нет дней рождения."
         else .ok ("📅 Дни рождения в группе:\n\n"
           ++ String.join (shown.map (bot.birthdayLine Local now)))) := by
  haveI : IsTotal Birthday (fun a b =>
      (bot.getNextBirthday Local b.Birthday now).Before
        (bot.getNextBirthday Local a.Birthday now) = false) :=
    ⟨fun a b => by
      simp only [Time.Before, decide_eq_false_iff_not, not_lt]
      exact le_total _ _⟩
  haveI : IsTrans Birthday (fun a b =>
      (bot.getNextBirthday Local b.Birthday now).Before
        (bot.getNextBirthday Local a.Birthday now) = false) :=
    ⟨fun a b c => by
      simp only [Time.Before, decide_eq_false_iff_not, not_lt]
      exact fun h1 h2 => le_trans h1 h2⟩
  refine ⟨_, bot.sortByNextBirthday Local now _, storage.GetBirthdays_eq s chatID,
    List.perm_insertionSort _ _, ?_, ?_⟩
  · have h := List.sorted_insertionSort (fun a b : Birthday =>
      (bot.getNextBirthday Local b.Birthday now).Before
        (bot.getNextBirthday Local a.Birthday now) = false)
      ((s.birthdays.filter (fun b => decide (b.GroupID = chatID))).insertionSort
        (fun a b => textLE a.Birthday.formatTimestamp b.Birthday.formatTimestamp = true))
    refine List.Pairwise.imp ?_ h
    intro a b hab
    simpa only [Time.Before, decide_eq_false_iff_not, not_lt] using hab
  · simp only [bot.handleShowBirthdays, storage.GetBirthdays_eq]

namespace storage

end storage

namespace scheduler

theorem checkGroups_append (Local : Int) (now : Time) (store : Repository) (bot : BotAPI)
    (pre post : List Group) :
    checkGroups Local now store bot (pre ++ post) =
      checkGroups Local now store bot pre ++ checkGroups Local now store bot post := by
  induction pre with
  | nil => rfl
  | cons g rest ih =>
    show checkGroup Local now store bot g ++ checkGroups Local now store bot (rest ++ post) = _
    rw [ih]
    simp only [checkGroups, List.append_assoc]

/-- Every message that the body of the loop delivers for a group goes to the
chat of that group, and there is at most one. -/
theorem checkGroup_chat (Local : Int) (now : Time) (store : Repository) (bot : BotAPI)
    (group : Group) :
    checkGroup Local now store bot group = [] ∨
    ∃ text, checkGroup Local now store bot group = [(group.ID, text)] := by
  simp only [checkGroup, sendGroupNotification]
  split
  · left; rfl
  · split
    · left; rfl
    · split
      · left; rfl
      · split
        · left; rfl
        · split
          · right; exact ⟨_, rfl⟩
          · left; rfl

/-- The time of day in nanoseconds after local midnight, from the fields of
the clock. -/
theorem abs_sub_combine (N C : Time) :
    N.abs - combineDateClock N C =
      ((N.Hour - C.Hour) * 3600 + (N.Minute - C.Minute) * 60 + N.Second) * 1000000000
        + N.Nanosecond := by
  simp only [combineDateClock, Time.days, Time.Hour, Time.Minute, Time.Second,
    Time.Nanosecond, Time.wallSec]
  omega

theorem Nanosecond_range (N : Time) : 0 ≤ N.Nanosecond ∧ N.Nanosecond < 1000000000 := by
  simp only [Time.Nanosecond]; omega

/-- Thirty seconds after the configured minute the window is open. -/
theorem shouldNotify_half_past (Local : Int) (N C : Time) (hN : N.zone = Local)
    (hh : N.Hour = C.Hour) (hm : N.Minute = C.Minute) (hs : N.Second = 30) :
    shouldNotify Local N C = true := by
  rw [shouldNotify_iff Local N C hN, abs_sub_combine, hh, hm, hs, abs_le]
  have := Nanosecond_range N
  simp only [Second]
  omega

/-- Two minutes after the configured minute the window is closed. -/
theorem shouldNotify_two_minutes_late (Local : Int) (N C : Time) (hN : N.zone = Local)
    (hh : N.Hour = C.Hour) (hm : N.Minute = C.Minute + 2) (hs : N.Second = 0) :
    shouldNotify Local N C = false := by
  cases h : shouldNotify Local N C
  · rfl
  · rw [shouldNotify_iff Local N C hN, abs_sub_combine, hh, hm, hs, abs_le] at h
    have := Nanosecond_range N
    simp only [Second] at h
    omega

/-- The messages of a pass when every call succeeds: one for each group whose
window is open and whose upcoming list is not empty. -/
theorem checkGroups_success (Local : Int) (now : Time) (store : Repository) (bot : BotAPI)
    (nt : Int → Time) (up : Int → List Birthday) (groups : List Group)
    (hn : ∀ g ∈ groups, store.GetNotifyTime g.ID = .ok (nt g.ID))
    (hu : ∀ g ∈ groups, store.GetUpcomingBirthdays g.ID 7 = .ok (up g.ID))
    (hs : ∀ chat text, bot.Send chat text = none) :
    checkGroups Local now store bot groups =
      (groups.filter (fun g => shouldNotify Local now (nt g.ID) && decide (up g.ID ≠ []))).map
        (fun g => (g.ID, "🎂 Предстоящие дни рождения:\n\n"
          ++ String.join ((up g.ID).map (notificationLine Local now)))) := by
  induction groups with
  | nil => rfl
  | cons g rest ih =>
    have ih' := ih (fun x hx => hn x (List.mem_cons_of_mem _ hx))
      (fun x hx => hu x (List.mem_cons_of_mem _ hx))
    simp only [checkGroups, ih', checkGroup, hn g (List.mem_cons_self _ _),
      hu g (List.mem_cons_self _ _), sendGroupNotification, hs, List.filter_cons]
    cases hsn : shouldNotify Local now (nt g.ID)
    · simp
    · cases hup : up g.ID with
      | nil => simp
      | cons b bs => simp [hup]

end scheduler

namespace scheduler

theorem no_message_for_other (l : List Group) (cond : Group → Bool) (txt : Group → String)
    (i : Int) (h : ∀ x ∈ l, x.ID ≠ i) :
    ((l.filter cond).map (fun x => (x.ID, txt x))).filter (fun m => decide (m.1 = i)) = [] := by
  rw [List.filter_eq_nil_iff]
  intro m hm
  obtain ⟨x, hx, rfl⟩ := List.mem_map.mp hm
  have := h x (List.mem_filter.mp hx).1
  simpa using this

theorem message_count (groups : List Group) (cond : Group → Bool) (txt : Group → String)
    (hkey : (groups.map (fun g => g.ID)).Nodup) :
    ∀ g ∈ groups,
      (((groups.filter cond).map (fun x => (x.ID, txt x))).filter
        (fun m => decide (m.1 = g.ID))).length = if cond g = true then 1 else 0 := by
  induction groups with
  | nil => intro g hg; cases hg
  | cons a rest ih =>
    simp only [List.map_cons, List.nodup_cons] at hkey
    obtain ⟨ha, hrest⟩ := hkey
    have hne : ∀ x ∈ rest, x.ID ≠ a.ID := fun x hx e =>
      ha (List.mem_map.mpr ⟨x, hx, e⟩)
    intro g hg
    rcases List.mem_cons.mp hg with rfl | hg'
    · have h0 := no_message_for_other rest cond txt g.ID hne
      cases hc : cond g
      · have e : (g :: rest).filter cond = rest.filter cond := by
          simp only [List.filter_cons, hc]; rfl
        rw [e, h0]; rfl
      · have e : (g :: rest).filter cond = g :: rest.filter cond := by
          simp only [List.filter_cons, hc, if_true]
        rw [e, List.map_cons, List.filter_cons]
        simp only [decide_True, if_true, h0]
        rfl
    · have hga : a.ID ≠ g.ID := fun e => hne g hg' e.symm
      have := ih hrest g hg'
      cases hc : cond a
      · have e : (a :: rest).filter cond = rest.filter cond := by
          simp only [List.filter_cons, hc]; rfl
        rw [e]; exact this
      · have e : (a :: rest).filter cond = a :: rest.filter cond := by
          simp only [List.filter_cons, hc, if_true]
        rw [e, List.map_cons, List.filter_cons]
        simp only [hga, decide_False]
        exact this

end scheduler

/-- C14: in one pass of `checkBirthdays` in which every call of the store and
of the transport succeeds, each group (group ids are distinct) receives
exactly one message if `shouldNotify` holds for its notify time and its
7-day upcoming list is not empty, and no message otherwise.  With notify time
09:00 and a non-empty upcoming list, a pass at 09:00:30 delivers one message
to the group and a pass at 09:02:00 none. -/
theorem checkBirthdays_one_message (Local : Int) (now : Time) (store : Repository)
    (bot : scheduler.BotAPI) (nt : Int → Time) (up : Int → List Birthday) (groups : List Group)
    (hz : now.zone = Local)
    (hg : store.GetAllGroups = .ok groups)
    (hkey : (groups.map (fun g => g.ID)).Nodup)
    (hn : ∀ g ∈ groups, store.GetNotifyTime g.ID = .ok (nt g.ID))
    (hu : ∀ g ∈ groups, store.GetUpcomingBirthdays g.ID 7 = .ok (up g.ID))
    (hs : ∀ chat text, bot.Send chat text = none) :
    (scheduler.checkBirthdays Local now store bot).1 = none ∧
    (∀ g ∈ groups,
      ((scheduler.checkBirthdays Local now store bot).2.filter
        (fun m => decide (m.1 = g.ID))).length =
        if scheduler.shouldNotify Local now (nt g.ID) = true ∧ up g.ID ≠ [] then 1 else 0) ∧
    (∀ g ∈ groups, (nt g.ID).Hour = 9 → (nt g.ID).Minute = 0 → up g.ID ≠ [] →
      (now.Hour = 9 → now.Minute = 0 → now.Second = 30 →
        ((scheduler.checkBirthdays Local now store bot).2.filter
          (fun m => decide (m.1 = g.ID))).length = 1) ∧
      (now.Hour = 9 → now.Minute = 2 → now.Second = 0 →
        ((scheduler.checkBirthdays Local now store bot).2.filter
          (fun m => decide (m.1 = g.ID))).length = 0)) := by
  have hcount : ∀ g ∈ groups,
      ((scheduler.checkBirthdays Local now store bot).2.filter
        (fun m => decide (m.1 = g.ID))).length =
        if scheduler.shouldNotify Local now (nt g.ID) = true ∧ up g.ID ≠ [] then 1 else 0 := by
    intro g hgm
    simp only [scheduler.checkBirthdays, hg,
      scheduler.checkGroups_success Local now store bot nt up groups hn hu hs]
    rw [scheduler.message_count groups _ _ hkey g hgm]
    simp only [Bool.and_eq_true, decide_eq_true_eq]
  refine ⟨by simp only [scheduler.checkBirthdays, hg], hcount, ?_⟩
  intro g hgm h9 h0 hup
  refine ⟨fun a b c => ?_, fun a b c => ?_⟩
  · rw [hcount g hgm,
      scheduler.shouldNotify_half_past Local now (nt g.ID) hz (by rw [a, h9]) (by rw [b, h0]) c]
    simp [hup]
  · rw [hcount g hgm,
      scheduler.shouldNotify_two_minutes_late Local now (nt g.ID) hz (by rw [a, h9])
        (by rw [b, h0]; rfl) c]
    simp

theorem checkBirthdays_one_message_witness :
    sampleNow.zone = 10800 ∧
    scheduler.okStore.GetAllGroups = .ok [{ ID := 7, Title := "" }, { ID := 8, Title := "" }] ∧
    (([{ ID := 7, Title := "" }, { ID := 8, Title := "" }] : List Group).map
      (fun g => g.ID)).Nodup ∧
    (sampleNow.Hour, sampleNow.Minute, sampleNow.Second) = (9, 0, 30) ∧
    (scheduler.checkBirthdays 10800 sampleNow scheduler.okStore scheduler.okBot).1 = none ∧
    ((scheduler.checkBirthdays 10800 sampleNow scheduler.okStore scheduler.okBot).2.filter
      (fun m => decide (m.1 = 7))).length = 1 :=
  ⟨by decide, rfl, by decide, by decide,
    (checkBirthdays_one_message 10800 sampleNow scheduler.okStore scheduler.okBot
      (fun _ => Date 0 1 1 9 0 0 0 0) (fun _ => [weekAhead])
      [{ ID := 7, Title := "" }, { ID := 8, Title := "" }]
      (by decide) rfl (by decide) (fun _ _ => rfl) (fun _ _ => rfl) (fun _ _ => rfl)).1,
    ((checkBirthdays_one_message 10800 sampleNow scheduler.okStore scheduler.okBot
      (fun _ => Date 0 1 1 9 0 0 0 0) (fun _ => [weekAhead])
      [{ ID := 7, Title := "" }, { ID := 8, Title := "" }]
      (by decide) rfl (by decide) (fun _ _ => rfl) (fun _ _ => rfl) (fun _ _ => rfl)).2.2
      { ID := 7, Title := "" } (List.mem_cons_self _ _) (by decide) (by decide)
      (by decide)).1 (by decide) (by decide) (by decide)⟩

namespace scheduler

/-- Every message that the body of the loop delivers for a group goes to the
chat of that group. -/
theorem checkGroup_filter_self (Local : Int) (now : Time) (store : Repository) (bot : BotAPI)
    (g : Group) :
    (checkGroup Local now store bot g).filter (fun m => decide (m.1 = g.ID))
      = checkGroup Local now store bot g := by
  rcases checkGroup_chat Local now store bot g with h | ⟨text, h⟩
  · rw [h]; rfl
  · rw [h]; simp

/-- No message of the body of the loop for a group goes to another chat. -/
theorem checkGroup_filter_other (Local : Int) (now : Time) (store : Repository) (bot : BotAPI)
    (g : Group) (i : Int) (hne : g.ID ≠ i) :
    (checkGroup Local now store bot g).filter (fun m => decide (m.1 = i)) = [] := by
  rcases checkGroup_chat Local now store bot g with h | ⟨text, h⟩
  · rw [h]; rfl
  · rw [h]; simp [hne]

/-- The messages of a pass that go to the chat of a group of the list are the
messages of the body of the loop for that group, whatever happens for the
other groups. -/
theorem checkGroups_filter (Local : Int) (now : Time) (store : Repository) (bot : BotAPI)
    (groups : List Group) (hkey : (groups.map (fun g => g.ID)).Nodup) :
    ∀ g ∈ groups,
      (checkGroups Local now store bot groups).filter (fun m => decide (m.1 = g.ID))
        = checkGroup Local now store bot g := by
  induction groups with
  | nil => intro g hg; cases hg
  | cons a rest ih =>
    simp only [List.map_cons, List.nodup_cons] at hkey
    obtain ⟨ha, hrest⟩ := hkey
    have hne : ∀ x ∈ rest, x.ID ≠ a.ID := fun x hx e =>
      ha (List.mem_map.mpr ⟨x, hx, e⟩)
    have hnone : ∀ l : List Group, (∀ x ∈ l, x.ID ≠ a.ID) →
        (checkGroups Local now store bot l).filter (fun m => decide (m.1 = a.ID)) = [] := by
      intro l
      induction l with
      | nil => intro _; rfl
      | cons x xs ihx =>
        intro hl
        simp only [checkGroups, List.filter_append,
          checkGroup_filter_other Local now store bot x a.ID (hl x (List.mem_cons_self _ _)),
          ihx (fun y hy => hl y (List.mem_cons_of_mem _ hy)), List.append_nil]
    intro g hg
    rcases List.mem_cons.mp hg with rfl | hg'
    · simp only [checkGroups, List.filter_append, checkGroup_filter_self, hnone rest hne,
        List.append_nil]
    · have hga : a.ID ≠ g.ID := fun e => hne g hg' e.symm
      simp only [checkGroups, List.filter_append,
        checkGroup_filter_other Local now store bot a g.ID hga, List.nil_append]
      exact ih hrest g hg'

end scheduler

/-- C18: when `GetAllGroups` succeeds (group ids are distinct, `id` being the
primary key), `checkBirthdays` returns no error and every group of the list
is processed, whatever happens for the other groups, those before it
included: a group whose notify time is read, whose window is open, whose
upcoming list is read and is not empty and whose message the transport
accepts receives exactly that one message; a group for which `GetNotifyTime`,
`GetUpcomingBirthdays` or `Send` fails receives none; and the messages that a
group receives are the same in a pass with any other store and transport that
answer alike for that group, so a failure for one group changes nothing for
the groups after it. -/
theorem checkBirthdays_continues (Local : Int) (now : Time) (store : Repository)
    (bot : scheduler.BotAPI) (groups : List Group)
    (hg : store.GetAllGroups = .ok groups)
    (hkey : (groups.map (fun g => g.ID)).Nodup) :
    (scheduler.checkBirthdays Local now store bot).1 = none ∧
    (∀ g ∈ groups, ∀ (notifyTime : Time) (birthdays : List Birthday),
      store.GetNotifyTime g.ID = .ok notifyTime →
      scheduler.shouldNotify Local now notifyTime = true →
      store.GetUpcomingBirthdays g.ID 7 = .ok birthdays →
      birthdays ≠ [] →
      bot.Send g.ID ("🎂 Предстоящие дни рождения:\n\n"
        ++ String.join (birthdays.map (scheduler.notificationLine Local now))) = none →
      (scheduler.checkBirthdays Local now store bot).2.filter (fun m => decide (m.1 = g.ID))
        = [(g.ID, "🎂 Предстоящие дни рождения:\n\n"
            ++ String.join (birthdays.map (scheduler.notificationLine Local now)))]) ∧
    (∀ g ∈ groups,
      ((∃ err, store.GetNotifyTime g.ID = .error err) ∨
       (∃ err, store.GetUpcomingBirthdays g.ID 7 = .error err) ∨
       (∃ birthdays err, store.GetUpcomingBirthdays g.ID 7 = .ok birthdays ∧
          bot.Send g.ID ("🎂 Предстоящие дни рождения:\n\n"
            ++ String.join (birthdays.map (scheduler.notificationLine Local now)))
            = some err)) →
      (scheduler.checkBirthdays Local now store bot).2.filter (fun m => decide (m.1 = g.ID))
        = []) ∧
    (∀ (store' : Repository) (bot' : scheduler.BotAPI),
      store'.GetAllGroups = .ok groups →
      ∀ g ∈ groups,
        store'.GetNotifyTime g.ID = store.GetNotifyTime g.ID →
        store'.GetUpcomingBirthdays g.ID 7 = store.GetUpcomingBirthdays g.ID 7 →
        (∀ text, bot'.Send g.ID text = bot.Send g.ID text) →
        (scheduler.checkBirthdays Local now store' bot').2.filter
            (fun m => decide (m.1 = g.ID))
          = (scheduler.checkBirthdays Local now store bot).2.filter
            (fun m => decide (m.1 = g.ID))) := by
  have hpass : ∀ (st : Repository) (bt : scheduler.BotAPI), st.GetAllGroups = .ok groups →
      ∀ g ∈ groups,
        (scheduler.checkBirthdays Local now st bt).2.filter (fun m => decide (m.1 = g.ID))
          = scheduler.checkGroup Local now st bt g := by
    intro st bt hst g hgm
    simp only [scheduler.checkBirthdays, hst]
    exact scheduler.checkGroups_filter Local now st bt groups hkey g hgm
  refine ⟨by simp only [scheduler.checkBirthdays, hg], ?_, ?_, ?_⟩
  · intro g hgm notifyTime birthdays h1 h2 h3 h4 h5
    rw [hpass store bot hg g hgm]
    have hlen : ¬ birthdays.length = 0 := fun h => h4 (List.length_eq_zero.mp h)
    simp only [scheduler.checkGroup, h1, h2, h3, scheduler.sendGroupNotification, h5, hlen]
    simp
  · intro g hgm hfail
    rw [hpass store bot hg g hgm]
    rcases hfail with ⟨err, h⟩ | ⟨err, h⟩ | ⟨birthdays, err, h, hsend⟩
    · simp only [scheduler.checkGroup, h]
    · simp only [scheduler.checkGroup, h]
      split
      · rfl
      · split <;> rfl
    · simp only [scheduler.checkGroup, h, scheduler.sendGroupNotification, hsend]
      split
      · rfl
      · split
        · rfl
        · split <;> rfl
  · intro store' bot' hg' g hgm h1 h2 h3
    rw [hpass store bot hg g hgm, hpass store' bot' hg' g hgm]
    simp only [scheduler.checkGroup, scheduler.sendGroupNotification, h1, h2, h3]

theorem checkBirthdays_continues_witness :
    scheduler.failingStore.GetAllGroups
      = .ok [{ ID := 7, Title := "" }, { ID := 8, Title := "" }] ∧
    (([{ ID := 7, Title := "" }, { ID := 8, Title := "" }] : List Group).map
      (fun g => g.ID)).Nodup ∧
    scheduler.failingStore.GetNotifyTime 7 = .error "ошибка получения времени уведомления" ∧
    (scheduler.checkBirthdays 10800 sampleNow scheduler.failingStore scheduler.okBot).1 = none ∧
    (scheduler.checkBirthdays 10800 sampleNow scheduler.failingStore scheduler.okBot).2.filter
        (fun m => decide (m.1 = 7)) = [] ∧
    (scheduler.checkBirthdays 10800 sampleNow scheduler.failingStore scheduler.okBot).2.filter
        (fun m => decide (m.1 = 8))
      = [(8, "🎂 Предстоящие дни рождения:\n\n"
          ++ String.join ([weekAhead].map (scheduler.notificationLine 10800 sampleNow)))] :=
  ⟨rfl, by decide, rfl,
    (checkBirthdays_continues 10800 sampleNow scheduler.failingStore scheduler.okBot
      [{ ID := 7, Title := "" }, { ID := 8, Title := "" }] rfl (by decide)).1,
    (checkBirthdays_continues 10800 sampleNow scheduler.failingStore scheduler.okBot
      [{ ID := 7, Title := "" }, { ID := 8, Title := "" }] rfl (by decide)).2.2.1
      { ID := 7, Title := "" } (List.mem_cons_self _ _) (Or.inl ⟨_, rfl⟩),
    (checkBirthdays_continues 10800 sampleNow scheduler.failingStore scheduler.okBot
      [{ ID := 7, Title := "" }, { ID := 8, Title := "" }] rfl (by decide)).2.1
      { ID := 8, Title := "" } (List.mem_cons_of_mem _ (List.mem_cons_self _ _))
      (Date 0 1 1 9 0 0 0 0) [weekAhead] rfl
      (scheduler.shouldNotify_half_past 10800 sampleNow (Date 0 1 1 9 0 0 0 0)
        (by decide) (by decide) (by decide) (by decide))
      rfl (by decide) rfl⟩

/-! ## The day count -/

namespace scheduler

/-- The result of `getNextBirthday` is less than 366 days after `now`. -/
theorem getNextBirthday_lt_366 (Local : Int) (B T : Time) (hT : T.zone = Local) :
    (getNextBirthday Local B T).abs < T.abs + 366 * 86400000000000 := by
  obtain ⟨k, hk, ha, _, h | ⟨j, hj, hkj, hy, hlt⟩⟩ := getNextBirthday_days Local B T
  · have h1 := (Time.abs_day T).1
    have h2 := (Time.days_year T).1
    rw [hT] at h1
    rw [ha]
    omega
  · rw [ha]
    omega

/-- The duration from `now` to the next birthday, as `Sub` returns it. -/
theorem getNextBirthday_sub (Local : Int) (B T : Time) (hT : T.zone = Local) :
    (getNextBirthday Local B T).Sub T = (getNextBirthday Local B T).abs - T.abs ∧
    0 ≤ (getNextBirthday Local B T).abs - T.abs ∧
    (getNextBirthday Local B T).abs - T.abs < 366 * 86400000000000 := by
  have h1 := getNextBirthday_ge_now Local B T hT
  have h2 := getNextBirthday_lt_366 Local B T hT
  refine ⟨?_, by omega, by omega⟩
  simp only [Time.Sub, maxDuration, minDuration]
  split_ifs <;> omega

end scheduler

/-- C15: with notify time 09:00 the ticks at 08:59:30 and at 09:00:30 of the
same day, one minute apart, both find `shouldNotify` true. -/
theorem shouldNotify_two_ticks :
    (Date 2024 6 1 9 0 30 0 10800).abs - (Date 2024 6 1 8 59 30 0 10800).abs = Minute ∧
    (Date 2024 6 1 8 59 30 0 10800).days = (Date 2024 6 1 9 0 30 0 10800).days ∧
    parseClock "09:00" = some (Date 0 1 1 9 0 0 0 0) ∧
    scheduler.shouldNotify 10800 (Date 2024 6 1 8 59 30 0 10800) (Date 0 1 1 9 0 0 0 0) = true ∧
    scheduler.shouldNotify 10800 (Date 2024 6 1 9 0 30 0 10800) (Date 0 1 1 9 0 0 0 0) = true := by
  decide

/-- C16: at 09:00:30 on 1 June, for a record whose birthday is 8 June, seven
calendar days ahead, `sendGroupNotification` writes the day count 6, not 7:
the count is the number of whole 24 hours from now to the midnight that
starts the birthday. -/
theorem notificationLine_week_ahead :
    ((sampleNow.Add (7 * (24 * Hour))).Month, (sampleNow.Add (7 * (24 * Hour))).Day)
      = (weekAhead.Birthday.Month, weekAhead.Birthday.Day) ∧
    (sampleNow.Hour, sampleNow.Minute, sampleNow.Second) = (9, 0, 30) ∧
    scheduler.notificationLine 10800 sampleNow weekAhead
      = "📅 Через 6 дней день рождения у Ann Lee\n" := by
  refine ⟨by decide, by decide, ?_⟩
  have hsub : (scheduler.getNextBirthday 10800 weekAhead.Birthday sampleNow).Sub sampleNow
      = 572370000000000 := by decide
  have hlo := days_ge 572370000000000 6 (by decide) (by decide) (by decide) (by decide)
  have hhi := days_lt 572370000000000 7 (by decide) (by decide) (by decide) (by decide)
  have hdays : truncInt (float64 (Duration.Hours 572370000000000 / 24)) = 6 := by omega
  simp only [scheduler.notificationLine, hsub, hdays]
  decide

namespace scheduler

end scheduler

namespace scheduler

/-- The candidate for 29 February in a year that is not a leap year is
1 March of that year. -/
theorem feb29_common_year (y loc : Int) (hl : isLeap y = false) :
    Date y 2 29 0 0 0 0 loc = Date y 3 1 0 0 0 0 loc := by
  rw [Date_midnight_abs y 2 29 loc (by omega), Date_midnight_abs y 3 1 loc (by omega), hl]
  rfl

/-- What `getNextBirthday` returns for a birth date of 29 February. -/
theorem getNextBirthday_feb29 (Local : Int) (B T : Time) (hB : B.Month = 2 ∧ B.Day = 29) :
    getNextBirthday Local B T =
      if (Date T.Year 2 29 0 0 0 0 Local).Before T then
        (if isLeap T.Year then Date (T.Year + 1) 2 29 0 0 0 0 Local
         else Date (T.Year + 1) 3 1 0 0 0 0 Local)
      else Date T.Year 2 29 0 0 0 0 Local := by
  rw [getNextBirthday_eq, hB.1, hB.2]
  cases hl : isLeap T.Year
  · have : monthDay false (ydayOfDate false 2 29) = (3, 1) := by decide
    simp only [this, Bool.false_eq_true, if_false]
  · have : monthDay true (ydayOfDate true 2 29) = (2, 29) := by decide
    simp only [this, if_true]

end scheduler

/-- C21: for a birth date of 29 February, when the year of the result (the
year of the reference instant, or the next one after the advance) is not a
leap year, `getNextBirthday` returns midnight of 1 March of that year, both
copies alike; for every reference instant in a year that is not a leap year
the month and day of the result are 1 March. -/
theorem getNextBirthday_feb29_march_first (Local : Int) (B T : Time)
    (hB : B.Month = 2 ∧ B.Day = 29) :
    (isLeap (scheduler.getNextBirthday Local B T).Year = false →
      scheduler.getNextBirthday Local B T
        = Date (scheduler.getNextBirthday Local B T).Year 3 1 0 0 0 0 Local ∧
      (scheduler.getNextBirthday Local B T).Month = 3 ∧
      (scheduler.getNextBirthday Local B T).Day = 1) ∧
    (isLeap T.Year = false →
      (scheduler.getNextBirthday Local B T).Month = 3 ∧
      (scheduler.getNextBirthday Local B T).Day = 1) ∧
    bot.getNextBirthday Local B T = scheduler.getNextBirthday Local B T := by
  have hmar : ∀ y : Int, (Date y 3 1 0 0 0 0 Local).Year = y ∧
      (Date y 3 1 0 0 0 0 Local).Month = 3 ∧ (Date y 3 1 0 0 0 0 Local).Day = 1 := by
    intro y
    have h := Date_civil y 3 1 0 0 Local (by omega) (by
      cases isLeap y <;> decide) (by omega) (by omega)
    exact ⟨h.1, h.2.1, h.2.2.1⟩
  have hfeb : ∀ y : Int, isLeap y = true → (Date y 2 29 0 0 0 0 Local).Year = y := by
    intro y hl
    exact (Date_civil y 2 29 0 0 Local (by omega) (by rw [hl]; decide) (by omega) (by omega)).1
  have heq := scheduler.getNextBirthday_feb29 Local B T hB
  refine ⟨fun hres => ?_, fun hl => ?_, rfl⟩
  · rw [heq] at hres ⊢
    cases hb : (Date T.Year 2 29 0 0 0 0 Local).Before T
    · simp only [hb, Bool.false_eq_true, if_false] at hres ⊢
      cases hl : isLeap T.Year
      · rw [scheduler.feb29_common_year T.Year Local hl] at hres ⊢
        obtain ⟨h1, h2, h3⟩ := hmar T.Year
        rw [h1]
        exact ⟨rfl, h2, h3⟩
      · rw [hfeb T.Year hl, hl] at hres
        cases hres
    · simp only [hb, if_true] at hres ⊢
      cases hl : isLeap T.Year
      · simp only [hl, Bool.false_eq_true, if_false] at hres ⊢
        obtain ⟨h1, h2, h3⟩ := hmar (T.Year + 1)
        rw [h1]
        exact ⟨rfl, h2, h3⟩
      · simp only [hl, if_true] at hres ⊢
        have hl1 := isLeap_succ T.Year hl
        rw [scheduler.feb29_common_year (T.Year + 1) Local hl1] at hres ⊢
        obtain ⟨h1, h2, h3⟩ := hmar (T.Year + 1)
        rw [h1]
        exact ⟨rfl, h2, h3⟩
  · rw [heq]
    simp only [hl, Bool.false_eq_true, if_false]
    rw [scheduler.feb29_common_year T.Year Local hl]
    split
    · exact (hmar (T.Year + 1)).2
    · exact (hmar T.Year).2

theorem getNextBirthday_feb29_march_first_witness :
    ((Date 2000 2 29 0 0 0 0 0).Month = 2 ∧ (Date 2000 2 29 0 0 0 0 0).Day = 29) ∧
    isLeap (Date 2023 6 1 9 0 30 0 10800).Year = false ∧
    (scheduler.getNextBirthday 10800 (Date 2000 2 29 0 0 0 0 0)
      (Date 2023 6 1 9 0 30 0 10800)).Month = 3 ∧
    (scheduler.getNextBirthday 10800 (Date 2000 2 29 0 0 0 0 0)
      (Date 2023 6 1 9 0 30 0 10800)).Day = 1 ∧
    (scheduler.getNextBirthday 10800 (Date 2000 2 29 0 0 0 0 0)
      (Date 2023 6 1 9 0 30 0 10800)).Year = 2024 :=
  ⟨by decide, by decide,
    ((getNextBirthday_feb29_march_first 10800 (Date 2000 2 29 0 0 0 0 0)
      (Date 2023 6 1 9 0 30 0 10800) (by decide)).2.1 (by decide)).1,
    ((getNextBirthday_feb29_march_first 10800 (Date 2000 2 29 0 0 0 0 0)
      (Date 2023 6 1 9 0 30 0 10800) (by decide)).2.1 (by decide)).2,
    by decide⟩

/-! ## Sign of the day count -/

namespace scheduler

/-- The day count from `now` to the next birthday is not negative. -/
theorem day_count_nonneg (Local : Int) (B T : Time) (hT : T.zone = Local) :
    0 ≤ truncInt (float64 (Duration.Hours ((getNextBirthday Local B T).Sub T) / 24)) := by
  obtain ⟨s1, s2, s3⟩ := getNextBirthday_sub Local B T hT
  rw [s1]
  exact days_ge _ 0 s2 (by simp only [maxDuration]; omega) (by omega) (by omega)

end scheduler

/-- C22: for every birth date and every current instant (a time of the local
zone), `getNextBirthday` is not before now, so the day count
`int(next.Sub(now).Hours() / 24)` of the scheduler and of the handler is never
negative, and in the lines that call `getDaysWord`, written when the count is
not 0, the argument is positive. -/
theorem day_count_never_negative (Local : Int) (b : Birthday) (T : Time)
    (hT : T.zone = Local) :
    (scheduler.getNextBirthday Local b.Birthday T).Before T = false ∧
    0 ≤ truncInt (float64 (Duration.Hours
      ((scheduler.getNextBirthday Local b.Birthday T).Sub T) / 24)) ∧
    0 ≤ truncInt (float64 (Duration.Hours
      ((bot.getNextBirthday Local b.Birthday T).Sub T) / 24)) ∧
    (scheduler.notificationLine Local T b = "🎉 Сегодня день рождения у " ++ b.Name ++ "!\n" ∨
      (0 < truncInt (float64 (Duration.Hours
          ((scheduler.getNextBirthday Local b.Birthday T).Sub T) / 24)) ∧
        scheduler.notificationLine Local T b =
          "📅 Через " ++ toString (truncInt (float64 (Duration.Hours
              ((scheduler.getNextBirthday Local b.Birthday T).Sub T) / 24)))
            ++ " " ++ scheduler.getDaysWord (truncInt (float64 (Duration.Hours
              ((scheduler.getNextBirthday Local b.Birthday T).Sub T) / 24)))
            ++ " день рождения у " ++ b.Name ++ "\n")) ∧
    (bot.birthdayLine Local T b =
        "🎉 " ++ b.Name ++ " - СЕГОДНЯ! (" ++ b.Birthday.formatDate ++ ")\n" ∨
      (0 < truncInt (float64 (Duration.Hours
          ((bot.getNextBirthday Local b.Birthday T).Sub T) / 24)) ∧
        bot.birthdayLine Local T b =
          "🎂 " ++ b.Name ++ " - " ++ toString (truncInt (float64 (Duration.Hours
              ((bot.getNextBirthday Local b.Birthday T).Sub T) / 24)))
            ++ " " ++ bot.getDaysWord (truncInt (float64 (Duration.Hours
              ((bot.getNextBirthday Local b.Birthday T).Sub T) / 24)))
            ++ " (" ++ b.Birthday.formatDate ++ ")\n")) := by
  have hge := scheduler.getNextBirthday_ge_now Local b.Birthday T hT
  have hn := scheduler.day_count_nonneg Local b.Birthday T hT
  have hn' : 0 ≤ truncInt (float64 (Duration.Hours
      ((bot.getNextBirthday Local b.Birthday T).Sub T) / 24)) := hn
  refine ⟨?_, hn, hn', ?_, ?_⟩
  · simp only [Time.Before, decide_eq_false_iff_not, not_lt]
    exact hge
  · by_cases h0 : truncInt (float64 (Duration.Hours
        ((scheduler.getNextBirthday Local b.Birthday T).Sub T) / 24)) = 0
    · left
      simp only [scheduler.notificationLine, h0, if_true]
    · right
      refine ⟨by omega, ?_⟩
      simp only [scheduler.notificationLine, h0, if_false]
  · by_cases h0 : truncInt (float64 (Duration.Hours
        ((bot.getNextBirthday Local b.Birthday T).Sub T) / 24)) = 0
    · left
      simp only [bot.birthdayLine, h0, if_true]
    · right
      refine ⟨by omega, ?_⟩
      simp only [bot.birthdayLine, h0, if_false]

theorem day_count_never_negative_witness :
    sampleNow.zone = 10800 ∧
    (scheduler.getNextBirthday 10800 weekAhead.Birthday sampleNow).Before sampleNow = false ∧
    0 ≤ truncInt (float64 (Duration.Hours
      ((scheduler.getNextBirthday 10800 weekAhead.Birthday sampleNow).Sub sampleNow) / 24)) :=
  ⟨by decide, (day_count_never_negative 10800 weekAhead sampleNow (by decide)).1,
    (day_count_never_negative 10800 weekAhead sampleNow (by decide)).2.1⟩

/-! ## Setting and reading the notify time -/

namespace GoTime

set_option maxRecDepth 1000000 in
theorem clock_table : ∀ h : Fin 24, ∀ m : Fin 60,
    parseClock (appendInt ((h : Nat) : Int) 2 ++ ":" ++ appendInt ((m : Nat) : Int) 2)
      = some (Date 0 1 1 ((h : Nat) : Int) ((m : Nat) : Int) 0 0 0) := by
  decide

theorem Time.clock_range (t : Time) :
    (0 ≤ t.Hour ∧ t.Hour < 24) ∧ (0 ≤ t.Minute ∧ t.Minute < 60) := by
  simp only [Time.Hour, Time.Minute]
  omega

/-- The text that `Format("15:04")` writes is read back by `Parse` as the
same hour and minute, on 1 January of year 0, UTC. -/
theorem parseClock_formatClock (t : Time) :
    parseClock t.formatClock = some (Date 0 1 1 t.Hour t.Minute 0 0 0) ∧
    (Date 0 1 1 t.Hour t.Minute 0 0 0).Hour = t.Hour ∧
    (Date 0 1 1 t.Hour t.Minute 0 0 0).Minute = t.Minute := by
  obtain ⟨hh, hm⟩ := Time.clock_range t
  have hc := Date_civil 0 1 1 t.Hour t.Minute 0 (by omega) (by decide) hh hm
  refine ⟨?_, hc.2.2.2.1, hc.2.2.2.2.1⟩
  simp only [Time.formatClock]
  generalize t.Hour = a at hh
  generalize t.Minute = b at hm
  obtain ⟨x, rfl⟩ := Int.eq_ofNat_of_zero_le hh.1
  obtain ⟨y, rfl⟩ := Int.eq_ofNat_of_zero_le hm.1
  have hx : x < 24 := by omega
  have hy : y < 60 := by omega
  exact clock_table ⟨x, hx⟩ ⟨y, hy⟩

end GoTime

namespace storage

theorem lookup_after_replace (l : List (Int × String)) (g : Int) (v : String) :
    (l.filter (fun p => !decide (p.1 = g)) ++ [(g, v)]).lookup g = some v ∧
    ∀ g', g' ≠ g →
      (l.filter (fun p => !decide (p.1 = g)) ++ [(g, v)]).lookup g' = l.lookup g' := by
  induction l with
  | nil =>
    refine ⟨by simp [List.lookup], fun g' hne => ?_⟩
    have : (g' == g) = false := by rw [beq_eq_false_iff_ne]; exact hne
    simp [List.lookup, this]
  | cons p rest ih =>
    obtain ⟨k, w⟩ := p
    obtain ⟨ih1, ih2⟩ := ih
    by_cases hk : k = g
    · subst hk
      have e : ((k, w) :: rest).filter (fun p => !decide (p.1 = k))
          = rest.filter (fun p => !decide (p.1 = k)) := by
        simp [List.filter_cons]
      rw [e]
      refine ⟨ih1, fun g' hne => ?_⟩
      have : (g' == k) = false := by rw [beq_eq_false_iff_ne]; exact hne
      rw [ih2 g' hne]
      simp only [List.lookup, this]
    · have e : ((k, w) :: rest).filter (fun p => !decide (p.1 = g))
          = (k, w) :: rest.filter (fun p => !decide (p.1 = g)) := by
        simp [List.filter_cons, hk]
      rw [e, List.cons_append]
      have hgk : (g == k) = false := by rw [beq_eq_false_iff_ne]; exact fun e => hk e.symm
      refine ⟨by simp only [List.lookup, hgk]; exact ih1, fun g' hne => ?_⟩
      by_cases hg'k : g' = k
      · subst hg'k
        simp [List.lookup]
      · have : (g' == k) = false := by rw [beq_eq_false_iff_ne]; exact hg'k
        simp only [List.lookup, this]
        exact ih2 g' hne

theorem one_row_after_replace (l : List (Int × String)) (g : Int) (v : String) :
    (l.filter (fun p => !decide (p.1 = g)) ++ [(g, v)]).filter (fun p => decide (p.1 = g))
      = [(g, v)] := by
  rw [List.filter_append, List.filter_filter]
  have : l.filter (fun a => decide (a.1 = g) && !decide (a.1 = g)) = [] := by
    rw [List.filter_eq_nil_iff]
    intro a _
    simp
  rw [this]
  simp

end storage

/-- C23: for every group and every time value `t`, `SetNotifyTime` succeeds
and `GetNotifyTime` of the group then succeeds with a time whose hour and
minute are those of `t`; the group has exactly one row afterwards, so a
second call leaves the last value only, and the settings of every other
group, and the other tables, are as before. -/
theorem SetNotifyTime_GetNotifyTime (s : SQLite) (Local groupID : Int) (t t2 : Time) :
    (s.SetNotifyTime groupID t).1 = none ∧
    (∃ r : Time, (s.SetNotifyTime groupID t).2.GetNotifyTime Local groupID = .ok r ∧
      r.Hour = t.Hour ∧ r.Minute = t.Minute) ∧
    (s.SetNotifyTime groupID t).2.settings.filter (fun p => decide (p.1 = groupID))
      = [(groupID, t.formatClock)] ∧
    ((s.SetNotifyTime groupID t).2.SetNotifyTime groupID t2).2.settings.filter
        (fun p => decide (p.1 = groupID)) = [(groupID, t2.formatClock)] ∧
    (∃ r : Time,
      ((s.SetNotifyTime groupID t).2.SetNotifyTime groupID t2).2.GetNotifyTime Local groupID
        = .ok r ∧ r.Hour = t2.Hour ∧ r.Minute = t2.Minute) ∧
    (∀ other : Int, other ≠ groupID →
      (s.SetNotifyTime groupID t).2.settings.filter (fun p => decide (p.1 = other))
        = s.settings.filter (fun p => decide (p.1 = other)) ∧
      (s.SetNotifyTime groupID t).2.GetNotifyTime Local other = s.GetNotifyTime Local other) ∧
    (s.SetNotifyTime groupID t).2.birthdays = s.birthdays ∧
    (s.SetNotifyTime groupID t).2.groups = s.groups := by
  have hget : ∀ (s' : SQLite) (u : Time),
      ∃ r : Time, (s'.SetNotifyTime groupID u).2.GetNotifyTime Local groupID = .ok r ∧
        r.Hour = u.Hour ∧ r.Minute = u.Minute := by
    intro s' u
    obtain ⟨p1, p2, p3⟩ := parseClock_formatClock u
    refine ⟨Date 0 1 1 u.Hour u.Minute 0 0 0, ?_, p2, p3⟩
    simp only [SQLite.GetNotifyTime, SQLite.SetNotifyTime,
      (storage.lookup_after_replace s'.settings groupID u.formatClock).1, p1]
  refine ⟨rfl, hget s t, storage.one_row_after_replace _ _ _,
    storage.one_row_after_replace _ _ _, hget _ t2, fun other hne => ⟨?_, ?_⟩, rfl, rfl⟩
  · simp only [SQLite.SetNotifyTime, List.filter_append, List.filter_filter]
    have e1 : List.filter (fun p : Int × String => decide (p.1 = other))
        [(groupID, t.formatClock)] = [] := by
      have hne' : ¬ groupID = other := fun h => hne h.symm
      simp [List.filter_cons, hne']
    rw [e1, List.append_nil]
    apply List.filter_congr
    intro p _
    by_cases hp : p.1 = other
    · simp [hp, hne]
    · simp [hp]
  · simp only [SQLite.GetNotifyTime, SQLite.SetNotifyTime,
      (storage.lookup_after_replace s.settings groupID t.formatClock).2 other hne]

/-! ## Short replies and the two copies -/

/-- C24: every reply text with fewer than three fields is answered with the
format message and leaves the database as it is.  "Ann 15.03.1990" is such a
text, although its name is not empty and its date parses and passes
`Validate`. -/
theorem processAddBirthday_two_fields (s : SQLite) (now : Time) (chatID : Int) (text : String)
    (h : (Fields text).length < 3) :
    bot.processAddBirthday s now chatID text
      = ("Неверный формат. Используйте: Имя Фамилия ДД.ММ.ГГГГ", s) ∧
    Fields "Ann 15.03.1990" = ["Ann", "15.03.1990"] ∧
    parseDate "15.03.1990" = some (Date 1990 3 15 0 0 0 0 0) ∧
    Birthday.Validate
      { ID := 0, Name := "Ann", Birthday := Date 1990 3 15 0 0 0 0 0, GroupID := 7 }
      sampleNow = none ∧
    bot.processAddBirthday emptyDB sampleNow 7 "Ann 15.03.1990"
      = ("Неверный формат. Используйте: Имя Фамилия ДД.ММ.ГГГГ", emptyDB) := by
  refine ⟨?_, by decide, by decide, by decide, by decide⟩
  simp only [bot.processAddBirthday, h, if_true]

theorem processAddBirthday_two_fields_witness :
    (Fields "Ann 15.03.1990").length < 3 ∧
    bot.processAddBirthday twoGroupDB sampleNow 7 "Ann 15.03.1990"
      = ("Неверный формат. Используйте: Имя Фамилия ДД.ММ.ГГГГ", twoGroupDB) :=
  ⟨by decide, (processAddBirthday_two_fields twoGroupDB sampleNow 7 "Ann 15.03.1990"
    (by decide)).1⟩

/-- C25: the copies of `getNextBirthday` and of `getDaysWord` in the handler
return, for every input, what the copies in the scheduler return. -/
theorem handler_copies_agree :
    (∀ (Local : Int) (birthday now : Time),
      bot.getNextBirthday Local birthday now = scheduler.getNextBirthday Local birthday now) ∧
    (∀ days : Int, bot.getDaysWord days = scheduler.getDaysWord days) :=
  ⟨fun _ _ _ => rfl, fun _ => rfl⟩
